import Mathlib

set_option maxRecDepth 8192

/-!
Shallow embedding of the `mizu-crypto` core (X3DH + Double Ratchet + outer
client) from `src/src/{keys,x3dh,double_ratchet,lib,error}.rs`.

Byte strings (`Vec<u8>`, `[u8; 32]`, ...) are modelled as `List Nat`; where a
property depends on values fitting in a byte or in a `u64`, this is stated as
an explicit hypothesis rather than baked into the type.

The cryptographic primitives used by the core live in external crates
(`x25519_dalek`, `hkdf`, `hmac`, `aes_gcm`); the core only composes them.  They
are therefore modelled as an abstract parameter structure `Prims` of pure
functions (they are pure in Rust as well: every call is a deterministic
function of its arguments), together with a soundness predicate `Prims.Sound`
collecting exactly the algebraic facts the protocol relies on
(Diffie-Hellman commutativity, AEAD round-trip, 32-byte public keys, bounded
AEAD output length).  All protocol-level definitions are translated from the
Rust source; theorems quantify over every sound choice of primitives.
-/

/-- Byte strings (`Vec<u8>` and friends).  Entries are unconstrained naturals;
`BytesWF` states that every entry fits in a byte. -/
abbrev Bytes := List Nat

/-- Every entry of the list fits in a `u8`. -/
def BytesWF (b : Bytes) : Prop := ∀ x ∈ b, x < 256

instance : DecidablePred BytesWF := fun b =>
  inferInstanceAs (Decidable (∀ x ∈ b, x < 256))

/-- Fixed-width little-endian encoding of a natural: `w` bytes, low byte
first.  Used for bincode's `u32`/`u64` encodings. -/
def toLE : Nat → Nat → Bytes
  | 0, _ => []
  | w + 1, n => n % 256 :: toLE w (n / 256)

/-- Little-endian decoding, inverse of `toLE` on byte-valued lists. -/
def fromLE : Bytes → Nat
  | [] => 0
  | b :: bs => b + 256 * fromLE bs

/-- Bincode's `u64` encoding: 8 bytes little-endian. -/
def u64le (n : Nat) : Bytes := toLE 8 n

/-- Bincode's `u32` encoding: 4 bytes little-endian. -/
def u32le (n : Nat) : Bytes := toLE 4 n

/-- Abstract cryptographic primitives from the external crates.  The Rust
functions are deterministic, so each is a pure function:

* `pubOf` — `PublicKey::from(&StaticSecret)` (`x25519_dalek`);
* `dh` — `StaticSecret::diffie_hellman(&PublicKey)` (`x25519_dalek`),
  first argument the private key bytes, second the public key bytes;
* `hkdfExtract` — `Hkdf::<Sha256>::new(salt, ikm)` (`hkdf`), producing a
  pseudorandom key; `none` is the all-zero salt case;
* `hkdfExpand` — `Hkdf::expand(info, okm)` into a 32-byte buffer (`hkdf`);
* `hmac` — `Hmac::<Sha256>` over the given key and input (`hmac`);
* `aeadEnc` / `aeadDec` — `Aes256Gcm::encrypt/decrypt` with key, nonce,
  associated data and message; encryption may fail on oversized input
  (`aes_gcm` caps plaintext length), decryption fails on tag mismatch. -/
structure Prims where
  pubOf : Bytes → Bytes
  dh : Bytes → Bytes → Bytes
  hkdfExtract : Option Bytes → Bytes → Bytes
  hkdfExpand : Bytes → Bytes → Bytes
  hmac : Bytes → Bytes → Bytes
  aeadEnc : Bytes → Bytes → Bytes → Bytes → Option Bytes
  aeadDec : Bytes → Bytes → Bytes → Bytes → Option Bytes

/-- Algebraic facts about the real primitives that the protocol relies on:
Diffie-Hellman agreement, AEAD decryption inverting encryption under the same
key/nonce/associated data, 32-byte Curve25519 public keys, and ciphertexts
short enough for their length to be a `u64` (in Rust this is forced by
`usize`). -/
structure Prims.Sound (P : Prims) : Prop where
  dh_comm : ∀ a b : Bytes, P.dh a (P.pubOf b) = P.dh b (P.pubOf a)
  aead_round : ∀ k n ad m ct, P.aeadEnc k n ad m = some ct →
    P.aeadDec k n ad ct = some m
  pub_len : ∀ p : Bytes, (P.pubOf p).length = 32
  enc_len : ∀ k n ad m ct, P.aeadEnc k n ad m = some ct → ct.length < 2 ^ 64

/-- Caller-supplied randomness (`csprng: &mut R`): an infinite tape of private
keys together with a position.  `StaticSecret::new(csprng)` reads the next
entry. -/
structure Rng where
  tape : Nat → Bytes
  pos : Nat

/-- One draw of a fresh private key from the rng. -/
def Rng.next (r : Rng) : Bytes × Rng := (r.tape r.pos, ⟨r.tape, r.pos + 1⟩)

/-- ASCII bytes of a string constant. -/
def asciiBytes (s : String) : Bytes := s.toList.map Char.toNat

/-- `INFO_RK` constant from `src/src/keys.rs`. -/
def INFO_RK : Bytes := asciiBytes ("MizuProtocolRootKey")

/-- `INFO` constant from `src/src/x3dh.rs`. -/
def INFO_X3DH : Bytes := asciiBytes ("MizuProtocol")

/-- `MAX_SKIP` constant from `src/src/double_ratchet.rs`. -/
def MAX_SKIP : Nat := 32

/-- `RootKey::kdf` from `src/src/keys.rs`: HKDF-SHA256 with the current root
key as salt and the DH output as input keying material, expanded twice with
info `INFO_RK` into 32-byte buffers `rk` and `ck`; the root key is replaced by
`rk` and `ck` is returned.  Result is `(new root key, chain key)`. -/
def RootKey.kdf (P : Prims) (rootKey sharedSecret : Bytes) : Bytes × Bytes :=
  let h := P.hkdfExtract (some rootKey) sharedSecret
  let rk := P.hkdfExpand h INFO_RK
  let ck := P.hkdfExpand h INFO_RK
  (rk, ck)

/-- `MessageKey` from `src/src/keys.rs`: 32 bytes of AEAD key bundled with 32
bytes of nonce material. -/
structure MessageKey where
  key : Bytes
  nonceMaterial : Bytes
deriving DecidableEq

/-- `ChainKey::kdf` from `src/src/keys.rs`: message key `HMAC(ck, [1])`,
nonce material `HMAC(ck, [3])`, and the chain key is replaced in place by
`HMAC(ck, [2])`.  Result is `(message key, new chain key)`. -/
def ChainKey.kdf (P : Prims) (ck : Bytes) : MessageKey × Bytes :=
  let mk := P.hmac ck [1]
  let nonce := P.hmac ck [3]
  (⟨mk, nonce⟩, P.hmac ck [2])

/-- `X3DHClient::kdf` from `src/src/x3dh.rs`: prepend 32 bytes of `0xff`,
HKDF-extract with zero salt, expand three times with info `INFO` into 32-byte
buffers.  Result is the triple `(okm0, okm1, okm2)`. -/
def X3DHClient.kdf (P : Prims) (input : Bytes) : Bytes × Bytes × Bytes :=
  let ikm := List.replicate 32 0xff ++ input
  let h := P.hkdfExtract none ikm
  let okm0 := P.hkdfExpand h INFO_X3DH
  let okm1 := P.hkdfExpand h INFO_X3DH
  let okm2 := P.hkdfExpand h INFO_X3DH
  (okm0, okm1, okm2)

/-- `DoubleRatchetMessageHeader` from `src/src/double_ratchet.rs`, fields in
declaration order: `ratchet_public_key`, `previous_sending_chain_count`,
`sent_count`. -/
structure DoubleRatchetMessageHeader where
  ratchet_public_key : Bytes
  previous_sending_chain_count : Nat
  sent_count : Nat
deriving DecidableEq

/-- `DoubleRatchetMessage` from `src/src/double_ratchet.rs`: header then
ciphertext. -/
structure DoubleRatchetMessage where
  header : DoubleRatchetMessageHeader
  ciphertext : Bytes
deriving DecidableEq

/-- `X3DHMessage` from `src/src/x3dh.rs`, fields in declaration order:
`identity_key`, `ephemeral_key`, `ciphertext`. -/
structure X3DHMessage where
  identity_key : Bytes
  ephemeral_key : Bytes
  ciphertext : Bytes
deriving DecidableEq

/-- `Message` from `src/src/lib.rs`: variants in declaration order, `X3DH`
(index 0) then `Regular` (index 1). -/
inductive Message where
  | X3DH (m : X3DHMessage)
  | Regular (identity_key : Bytes) (m : DoubleRatchetMessage)
deriving DecidableEq

/-- Modelled from the spec: bincode's encoding of a `Vec<u8>` ("length-prefixed
byte strings with a 64-bit unsigned little-endian length", spec section 6);
the bincode crate itself is not part of this repository's sources. -/
def serVec (b : Bytes) : Bytes := u64le b.length ++ b

/-- Modelled from the spec: serde/bincode encoding of an `x25519_dalek` public
key ("Public keys are 32-byte raw Curve25519 encodings", spec section 6); the
key types' serde impls live in the external crate, absent from the sources. -/
def serKey (k : Bytes) : Bytes := k

/-- Bincode encoding of `DoubleRatchetMessageHeader`: fields in declaration
order, counters as `u64` little-endian (spec section 6 grammar `DRHeader`). -/
def serDRHeader (h : DoubleRatchetMessageHeader) : Bytes :=
  serKey h.ratchet_public_key ++ u64le h.previous_sending_chain_count ++
    u64le h.sent_count

/-- Bincode encoding of `DoubleRatchetMessage` (spec section 6 grammar
`DRMessage`). -/
def serDRMessage (m : DoubleRatchetMessage) : Bytes :=
  serDRHeader m.header ++ serVec m.ciphertext

/-- Bincode encoding of `X3DHMessage`: fields in declaration order (spec
section 6 grammar `X3DHEnvelope`). -/
def serX3DHMessage (m : X3DHMessage) : Bytes :=
  serKey m.identity_key ++ serKey m.ephemeral_key ++ serVec m.ciphertext

/-- Bincode encoding of `Message`: a `u32` little-endian discriminant (0 for
`X3DH`, 1 for `Regular`, in declaration order) followed by the payload (spec
section 6 grammar `Message`). -/
def serMessage : Message → Bytes
  | .X3DH m => u32le 0 ++ serX3DHMessage m
  | .Regular ik m => u32le 1 ++ serKey ik ++ serDRMessage m

/-- Read exactly `n` bytes, returning them and the remainder. -/
def parseN (n : Nat) (b : Bytes) : Option (Bytes × Bytes) :=
  if n ≤ b.length then some (b.take n, b.drop n) else none

/-- Read a little-endian `u64`. -/
def parseU64 (b : Bytes) : Option (Nat × Bytes) :=
  (parseN 8 b).map fun p => (fromLE p.1, p.2)

/-- Read a little-endian `u32`. -/
def parseU32 (b : Bytes) : Option (Nat × Bytes) :=
  (parseN 4 b).map fun p => (fromLE p.1, p.2)

/-- Read a length-prefixed byte string. -/
def parseVec (b : Bytes) : Option (Bytes × Bytes) :=
  (parseU64 b).bind fun p => parseN p.1 p.2

/-- Read a raw 32-byte key. -/
def parseKey (b : Bytes) : Option (Bytes × Bytes) := parseN 32 b

/-- Decode a `DoubleRatchetMessageHeader`. -/
def parseDRHeader (b : Bytes) : Option (DoubleRatchetMessageHeader × Bytes) :=
  (parseKey b).bind fun p1 =>
    (parseU64 p1.2).bind fun p2 =>
      (parseU64 p2.2).map fun p3 => (⟨p1.1, p2.1, p3.1⟩, p3.2)

/-- Decode a `DoubleRatchetMessage`. -/
def parseDRMessage (b : Bytes) : Option (DoubleRatchetMessage × Bytes) :=
  (parseDRHeader b).bind fun p1 =>
    (parseVec p1.2).map fun p2 => (⟨p1.1, p2.1⟩, p2.2)

/-- Decode an `X3DHMessage`. -/
def parseX3DHMessage (b : Bytes) : Option (X3DHMessage × Bytes) :=
  (parseKey b).bind fun p1 =>
    (parseKey p1.2).bind fun p2 =>
      (parseVec p2.2).map fun p3 => (⟨p1.1, p2.1, p3.1⟩, p3.2)

/-- Decode a `Message`: tag 0 is `X3DH`, tag 1 is `Regular`, anything else is
rejected. -/
def parseMessage (b : Bytes) : Option (Message × Bytes) :=
  (parseU32 b).bind fun p =>
    if p.1 = 0 then (parseX3DHMessage p.2).map fun q => (Message.X3DH q.1, q.2)
    else if p.1 = 1 then
      (parseKey p.2).bind fun q1 =>
        (parseDRMessage q1.2).map fun q2 => (Message.Regular q1.1 q2.1, q2.2)
    else none

/-- `bincode::deserialize::<DoubleRatchetMessage>`: a full-input decode. -/
def deserializeDRMessage (b : Bytes) : Option DoubleRatchetMessage :=
  match parseDRMessage b with
  | some (m, []) => some m
  | _ => none

/-- `bincode::deserialize::<Message>`: a full-input decode. -/
def deserializeMessage (b : Bytes) : Option Message :=
  match parseMessage b with
  | some (m, []) => some m
  | _ => none

/-- Well-formedness of a header as produced by the Rust code: the ratchet
public key is a 32-byte value and the `u64` counters are in range. -/
def DoubleRatchetMessageHeader.wf (h : DoubleRatchetMessageHeader) : Prop :=
  h.ratchet_public_key.length = 32 ∧
    h.previous_sending_chain_count < 2 ^ 64 ∧ h.sent_count < 2 ^ 64

instance : DecidablePred DoubleRatchetMessageHeader.wf := fun _ =>
  inferInstanceAs (Decidable (_ ∧ _ ∧ _))

/-- Well-formedness of a Double Ratchet message: header well-formed and the
ciphertext length fits a `u64` (forced by `usize` in Rust). -/
def DoubleRatchetMessage.wf (m : DoubleRatchetMessage) : Prop :=
  m.header.wf ∧ m.ciphertext.length < 2 ^ 64

instance : DecidablePred DoubleRatchetMessage.wf := fun _ =>
  inferInstanceAs (Decidable (_ ∧ _))

/-- Well-formedness of an X3DH envelope: 32-byte keys and a bounded
ciphertext length. -/
def X3DHMessage.wf (m : X3DHMessage) : Prop :=
  m.identity_key.length = 32 ∧ m.ephemeral_key.length = 32 ∧
    m.ciphertext.length < 2 ^ 64

instance : DecidablePred X3DHMessage.wf := fun _ =>
  inferInstanceAs (Decidable (_ ∧ _ ∧ _))

/-- Well-formedness of a wire message. -/
def Message.wf : Message → Prop
  | .X3DH m => m.wf
  | .Regular ik m => ik.length = 32 ∧ m.wf

instance : DecidablePred Message.wf := fun m => by
  cases m with
  | X3DH m => exact inferInstanceAs (Decidable m.wf)
  | Regular ik m => exact inferInstanceAs (Decidable (_ ∧ _))

/-- `CryptoError` from `src/src/error.rs` (payload strings and bincode error
details omitted). -/
inductive CryptoError where
  | AEADEncryption
  | AEADDecryption
  | Serialization
  | Deserialization
  | TooManySkippedMessages
  | UnreadableDoubleRatchetMessage
deriving DecidableEq

/-- A Curve25519 keypair (`IdentityKeyPair` / `PrekeyKeyPair` /
`RatchetKeyPair` from `src/src/keys.rs` all have this shape: a `StaticSecret`
and the derived `PublicKey`). -/
structure KeyPair where
  private_key : Bytes
  public_key : Bytes
deriving DecidableEq

/-- `StaticSecret::new(csprng)` followed by `PublicKey::from(&private_key)`,
the body of all three `*KeyPair::new` constructors in `src/src/keys.rs`. -/
def KeyPair.new (P : Prims) (rng : Rng) : KeyPair × Rng :=
  let (priv, rng') := rng.next
  (⟨priv, P.pubOf priv⟩, rng')

/-- `X3DHClient` from `src/src/x3dh.rs`: identity keypair and prekey
keypair. -/
structure X3DHClient where
  identity_key : KeyPair
  prekey : KeyPair
deriving DecidableEq

/-- `X3DHClient::new` from `src/src/x3dh.rs`: draw the identity keypair, then
the prekey keypair. -/
def X3DHClient.new (P : Prims) (rng : Rng) : X3DHClient × Rng :=
  let (ik, rng1) := KeyPair.new P rng
  let (pk, rng2) := KeyPair.new P rng1
  (⟨ik, pk⟩, rng2)

/-- `X3DHClient::derive_initial_keys` from `src/src/x3dh.rs`: fresh ephemeral
key, three DHs, X3DH KDF; returns `(secret key, ephemeral public key)`. -/
def X3DHClient.derive_initial_keys (P : Prims) (cl : X3DHClient) (rng : Rng)
    (ik pk : Bytes) : (Bytes × Bytes) × Rng :=
  let (ephPriv, rng') := rng.next
  let ephPub := P.pubOf ephPriv
  let dh1 := P.dh cl.identity_key.private_key pk
  let dh2 := P.dh ephPriv ik
  let dh3 := P.dh ephPriv pk
  let okm := X3DHClient.kdf P (dh1 ++ dh2 ++ dh3)
  ((okm.1, ephPub), rng')

/-- `X3DHClient::build_associated_data` from `src/src/x3dh.rs`: concatenation
of sender key, receiver key, sender info, receiver info. -/
def X3DHClient.build_associated_data (senderKey receiverKey senderInfo
    receiverInfo : Bytes) : Bytes :=
  senderKey ++ receiverKey ++ senderInfo ++ receiverInfo

/-- `X3DHClient::construct_initial_message` from `src/src/x3dh.rs`: run the
X3DH KDF on the shared secret taking outputs 0 (AEAD key) and 2 (nonce
material), AES-256-GCM-encrypt the content, and package the envelope.  The
Rust code unwraps the encryption result; `none` models that panic. -/
def X3DHClient.construct_initial_message (P : Prims) (cl : X3DHClient)
    (content secretKey ephemeralKey : Bytes) (ad : Bytes) :
    Option X3DHMessage :=
  let okm := X3DHClient.kdf P secretKey
  match P.aeadEnc okm.1 (okm.2.2.take 12) ad content with
  | some ct => some ⟨cl.identity_key.public_key, ephemeralKey, ct⟩
  | none => none

/-- `X3DHClient::decrypt_initial_message` from `src/src/x3dh.rs`: the
responder's three DHs, the same KDF twice (secret key, then AEAD key and nonce
material), associated data rebuilt with the envelope's identity key, then
AES-256-GCM decryption; tag mismatch is `AEADDecryption`. -/
def X3DHClient.decrypt_initial_message (P : Prims) (cl : X3DHClient)
    (msg : X3DHMessage) (senderInfo receiverInfo : Bytes) :
    Except CryptoError (Bytes × Bytes) :=
  let dh1 := P.dh cl.prekey.private_key msg.identity_key
  let dh2 := P.dh cl.identity_key.private_key msg.ephemeral_key
  let dh3 := P.dh cl.prekey.private_key msg.ephemeral_key
  let okm := X3DHClient.kdf P (dh1 ++ dh2 ++ dh3)
  let okm2 := X3DHClient.kdf P okm.1
  let ad := X3DHClient.build_associated_data msg.identity_key
    cl.identity_key.public_key senderInfo receiverInfo
  match P.aeadDec okm2.1 (okm2.2.2.take 12) ad msg.ciphertext with
  | some pt => .ok (okm.1, pt)
  | none => .error .AEADDecryption

/-- Key of the skipped-messages map: `SkippedMessagesKey(RatchetPublicKey,
u64)` from `src/src/double_ratchet.rs`. -/
abbrev SkippedMessagesKey := Bytes × Nat

/-- The `HashMap<SkippedMessagesKey, MessageKey>` is modelled as an
association list with unique keys (insertion replaces). -/
abbrev SkippedMap := List (SkippedMessagesKey × MessageKey)

/-- `HashMap::get`. -/
def smLookup (k : SkippedMessagesKey) : SkippedMap → Option MessageKey
  | [] => none
  | (k', v) :: rest => if k' = k then some v else smLookup k rest

/-- `HashMap::remove`. -/
def smRemoveKey (k : SkippedMessagesKey) (m : SkippedMap) : SkippedMap :=
  m.filter fun e => decide (e.1 ≠ k)

/-- `HashMap::insert` (insert-or-replace). -/
def smInsert (k : SkippedMessagesKey) (v : MessageKey) (m : SkippedMap) :
    SkippedMap :=
  (k, v) :: smRemoveKey k m

/-- `DoubleRatchetClient` from `src/src/double_ratchet.rs`, fields in
declaration order. -/
structure DoubleRatchetClient where
  sending_ratchet_keypair : KeyPair
  receiving_ratchet_key : Option Bytes
  root_key : Bytes
  sending_chain_key : Option Bytes
  receiving_chain_key : Option Bytes
  sent_count : Nat
  received_count : Nat
  previous_sending_chain_count : Nat
  skipped_messages : SkippedMap
deriving DecidableEq

namespace DoubleRatchetClient

/-- `DoubleRatchetClient::initiate` from `src/src/double_ratchet.rs`: view the
peer prekey as the receiving ratchet key, draw a fresh sending ratchet
keypair, seed the root key with the X3DH secret, and derive the sending chain
key with one root KDF step. -/
def initiate (P : Prims) (rng : Rng) (secretKey recipientPrekey : Bytes) :
    DoubleRatchetClient × Rng :=
  let receivingRatchetKey := recipientPrekey
  let (kp, rng') := KeyPair.new P rng
  let sharedSecret := P.dh kp.private_key receivingRatchetKey
  let r := RootKey.kdf P secretKey sharedSecret
  (⟨kp, some receivingRatchetKey, r.1, some r.2, none, 0, 0, 0, []⟩, rng')

/-- `DoubleRatchetClient::respond` from `src/src/double_ratchet.rs`: reuse the
prekey keypair as the sending ratchet keypair, seed the root key with the
X3DH secret, everything else empty. -/
def respond (secretKey : Bytes) (prekeyKeypair : KeyPair) :
    DoubleRatchetClient :=
  ⟨prekeyKeypair, none, secretKey, none, none, 0, 0, 0, []⟩

/-- `DoubleRatchetClient::build_associated_data` from
`src/src/double_ratchet.rs`: the X3DH associated data followed by the
bincode-serialized message header. -/
def build_associated_data (x3dhAD : Bytes)
    (header : DoubleRatchetMessageHeader) : Bytes :=
  x3dhAD ++ serDRHeader header

/-- `DoubleRatchetClient::encrypt` from `src/src/double_ratchet.rs`:
AES-256-GCM with the message key and the first 12 bytes of the nonce
material. -/
def encrypt (P : Prims) (mk : MessageKey) (plaintext ad : Bytes) :
    Option Bytes :=
  P.aeadEnc mk.key (mk.nonceMaterial.take 12) ad plaintext

/-- `DoubleRatchetClient::decrypt` from `src/src/double_ratchet.rs`. -/
def decrypt (P : Prims) (mk : MessageKey) (ciphertext ad : Bytes) :
    Option Bytes :=
  P.aeadDec mk.key (mk.nonceMaterial.take 12) ad ciphertext

/-- `DoubleRatchetClient::encrypt_message` from `src/src/double_ratchet.rs`.
The sending chain key is advanced in place by the chain KDF before
encryption, so on `AEADEncryption` failure the advanced chain key is kept but
`sent_count` is not incremented.  `none` models the `expect` panic when no
sending chain key exists. -/
def encrypt_message (P : Prims) (dr : DoubleRatchetClient)
    (plaintext x3dhAD : Bytes) :
    Option ((Except CryptoError DoubleRatchetMessage) × DoubleRatchetClient) :=
  match dr.sending_chain_key with
  | none => none
  | some ck =>
    let r := ChainKey.kdf P ck
    let dr1 := { dr with sending_chain_key := some r.2 }
    let header : DoubleRatchetMessageHeader :=
      ⟨dr.sending_ratchet_keypair.public_key,
        dr.previous_sending_chain_count, dr.sent_count⟩
    let ad := build_associated_data x3dhAD header
    match encrypt P r.1 plaintext ad with
    | none => some (.error .AEADEncryption, dr1)
    | some ct =>
      some (.ok ⟨header, ct⟩, { dr1 with sent_count := dr1.sent_count + 1 })

/-- `DoubleRatchetClient::encrypt_message_and_serialize` from
`src/src/double_ratchet.rs`.  Bincode serialization of a
`DoubleRatchetMessage` cannot fail, so no `Serialization` error arises. -/
def encrypt_message_and_serialize (P : Prims) (dr : DoubleRatchetClient)
    (plaintext x3dhAD : Bytes) :
    Option ((Except CryptoError Bytes) × DoubleRatchetClient) :=
  match encrypt_message P dr plaintext x3dhAD with
  | none => none
  | some (.error e, dr') => some (.error e, dr')
  | some (.ok m, dr') => some (.ok (serDRMessage m), dr')

/-- The `while` loop inside `skip_message_keys`: derive `fuel` successive
message keys from the receiving chain, storing each under
`(receiving ratchet key, receive counter)`.  Returns the advanced chain key,
counter, and map. -/
def skipChain (P : Prims) (rk : Bytes) :
    Nat → Bytes → Nat → SkippedMap → Bytes × Nat × SkippedMap
  | 0, ck, received, skipped => (ck, received, skipped)
  | fuel + 1, ck, received, skipped =>
    let r := ChainKey.kdf P ck
    skipChain P rk fuel r.2 (received + 1) (smInsert (rk, received) r.1 skipped)

/-- `DoubleRatchetClient::skip_message_keys` from
`src/src/double_ratchet.rs`: fail with `TooManySkippedMessages` whenever
`received_count + MAX_SKIP < until` (this check precedes, and is independent
of, the existence of a receiving chain key); otherwise, if a receiving chain
key exists, derive and store the skipped message keys.  `none` models the
panic of the `unwrap` on `receiving_ratchet_key` (unreachable in states the
code constructs, where a receiving chain key implies a receiving ratchet
key). -/
def skip_message_keys (P : Prims) (dr : DoubleRatchetClient) (upto : Nat) :
    Option (Except CryptoError DoubleRatchetClient) :=
  if dr.received_count + MAX_SKIP < upto then
    some (.error .TooManySkippedMessages)
  else
    match dr.receiving_chain_key with
    | none => some (.ok dr)
    | some ck =>
      if dr.received_count < upto then
        match dr.receiving_ratchet_key with
        | none => none
        | some rk =>
          let r := skipChain P rk (upto - dr.received_count) ck
            dr.received_count dr.skipped_messages
          let dr' := { dr with receiving_chain_key := some r.1,
                               received_count := r.2.1,
                               skipped_messages := r.2.2 }
          some (.ok dr')
      else some (.ok dr)

/-- `DoubleRatchetClient::attempt_message_decryption` from
`src/src/double_ratchet.rs`.  The skipped-map hit path decrypts with the
stored key and removes it only on success.  Otherwise all work happens on a
tentative copy (`new_state`), committed only on success; on an error return
the original state is kept (the rng, however, keeps any advance).  `none`
models the panics (`unwrap` on a missing receiving chain key after the skip
phase, or inside `skip_message_keys`). -/
def attempt_message_decryption (P : Prims) (dr : DoubleRatchetClient)
    (rng : Rng) (msg : DoubleRatchetMessage) (x3dhAD : Bytes) :
    Option ((Except CryptoError Bytes) × DoubleRatchetClient × Rng) :=
  let ad := build_associated_data x3dhAD msg.header
  let hashmapKey : SkippedMessagesKey :=
    (msg.header.ratchet_public_key, msg.header.sent_count)
  match smLookup hashmapKey dr.skipped_messages with
  | some mkey =>
    match decrypt P mkey msg.ciphertext ad with
    | none => some (.error .AEADDecryption, dr, rng)
    | some pt =>
      let dr' := { dr with
                   skipped_messages := smRemoveKey hashmapKey dr.skipped_messages }
      some (.ok pt, dr', rng)
  | none =>
    let step :
        Option ((Except CryptoError DoubleRatchetClient) × Rng) :=
      if some msg.header.ratchet_public_key ≠ dr.receiving_ratchet_key then
        match skip_message_keys P dr msg.header.previous_sending_chain_count with
        | none => none
        | some (.error e) => some (.error e, rng)
        | some (.ok s1) =>
          let s2 := { s1 with
                      previous_sending_chain_count := s1.sent_count,
                      sent_count := 0,
                      received_count := 0,
                      receiving_ratchet_key := some msg.header.ratchet_public_key }
          let r1 := RootKey.kdf P s2.root_key
            (P.dh s2.sending_ratchet_keypair.private_key
              msg.header.ratchet_public_key)
          let (kp, rng') := KeyPair.new P rng
          let r2 := RootKey.kdf P r1.1
            (P.dh kp.private_key msg.header.ratchet_public_key)
          let s3 := { s2 with
                      receiving_chain_key := some r1.2,
                      sending_ratchet_keypair := kp,
                      root_key := r2.1,
                      sending_chain_key := some r2.2 }
          some (.ok s3, rng')
      else some (.ok dr, rng)
    match step with
    | none => none
    | some (.error e, rng') => some (.error e, dr, rng')
    | some (.ok s3, rng') =>
      match skip_message_keys P s3 msg.header.sent_count with
      | none => none
      | some (.error e) => some (.error e, dr, rng')
      | some (.ok s4) =>
        match s4.receiving_chain_key with
        | none => none
        | some ck =>
          let r := ChainKey.kdf P ck
          let s5 := { s4 with receiving_chain_key := some r.2 }
          match decrypt P r.1 msg.ciphertext ad with
          | none => some (.error .AEADDecryption, dr, rng')
          | some pt =>
            some (.ok pt, { s5 with received_count := s5.received_count + 1 },
              rng')

end DoubleRatchetClient

/-- `Client` from `src/src/lib.rs`: X3DH agent, optional Double Ratchet
agent, the two info strings, and the unacknowledged-X3DH slot `(secret key,
ephemeral public key)`. -/
structure Client where
  x3dh : X3DHClient
  double_ratchet : Option DoubleRatchetClient
  our_info : Bytes
  their_info : Bytes
  unacknowledged_x3dh : Option (Bytes × Bytes)
deriving DecidableEq

namespace Client

/-- `Client::new` from `src/src/lib.rs`: a fresh X3DH agent, no Double
Ratchet, no unacknowledged X3DH. -/
def new (P : Prims) (rng : Rng) (ourInfo theirInfo : Bytes) : Client × Rng :=
  let (x, rng') := X3DHClient.new P rng
  (⟨x, none, ourInfo, theirInfo, none⟩, rng')

/-- `Client::create_message` from `src/src/lib.rs`.  Branches on
`(double_ratchet, unacknowledged_x3dh)`:

* `(None, None)` — run X3DH, initiate the Double Ratchet, encrypt, wrap in an
  X3DH envelope, set both slots;
* `(None, Some _)` — `unreachable!` (modelled as `none`);
* `(Some _, None)` — encrypt with the Double Ratchet, emit a `Regular`
  envelope;
* `(Some _, Some _)` — encrypt with the existing Double Ratchet and re-wrap
  in an X3DH envelope built from the stored secret key and ephemeral public
  key, keeping the slot.

`none` also models the panic inside `construct_initial_message` and the
`expect` panic of `encrypt_message` on a missing sending chain key. -/
def create_message (P : Prims) (c : Client) (rng : Rng)
    (recipientIdentityKey recipientPrekey messageContent : Bytes) :
    Option ((Except CryptoError Message) × Client × Rng) :=
  let ad := X3DHClient.build_associated_data c.x3dh.identity_key.public_key
    recipientIdentityKey c.our_info c.their_info
  match c.double_ratchet, c.unacknowledged_x3dh with
  | none, none =>
    let ((secretKey, ephemeralPublicKey), rng1) :=
      X3DHClient.derive_initial_keys P c.x3dh rng recipientIdentityKey
        recipientPrekey
    let (dr, rng2) := DoubleRatchetClient.initiate P rng1 secretKey
      recipientPrekey
    match DoubleRatchetClient.encrypt_message_and_serialize P dr
        messageContent ad with
    | none => none
    | some (.error e, _) => some (.error e, c, rng2)
    | some (.ok serialized, dr') =>
      match X3DHClient.construct_initial_message P c.x3dh serialized
          secretKey ephemeralPublicKey ad with
      | none => none
      | some xm =>
        let c' := { c with
                    double_ratchet := some dr',
                    unacknowledged_x3dh := some (secretKey, ephemeralPublicKey) }
        some (.ok (Message.X3DH xm), c', rng2)
  | none, some _ => none
  | some dr, none =>
    match DoubleRatchetClient.encrypt_message P dr messageContent ad with
    | none => none
    | some (res, dr') =>
      let c' := { c with double_ratchet := some dr' }
      match res with
      | .error e => some (.error e, c', rng)
      | .ok m =>
        some (.ok (Message.Regular c.x3dh.identity_key.public_key m), c', rng)
  | some dr, some (secretKey, ephemeralPublicKey) =>
    match DoubleRatchetClient.encrypt_message_and_serialize P dr
        messageContent ad with
    | none => none
    | some (res, dr') =>
      let c' := { c with double_ratchet := some dr' }
      match res with
      | .error e => some (.error e, c', rng)
      | .ok serialized =>
        match X3DHClient.construct_initial_message P c.x3dh serialized
            secretKey ephemeralPublicKey ad with
        | none => none
        | some xm =>
          let c'' := { c' with
                       unacknowledged_x3dh := some (secretKey, ephemeralPublicKey) }
          some (.ok (Message.X3DH xm), c'', rng)

/-- `Client::attempt_message_decryption` from `src/src/lib.rs`.  A `Regular`
envelope without a Double Ratchet is rejected; an X3DH envelope is decrypted
and, on success of the inner Double Ratchet decryption, a fresh responder
ratchet replaces the current one and the unacknowledged slot is cleared; a
`Regular` envelope is decrypted with the existing ratchet, clearing the
unacknowledged slot on success. -/
def attempt_message_decryption (P : Prims) (c : Client) (rng : Rng)
    (message : Message) :
    Option ((Except CryptoError Bytes) × Client × Rng) :=
  match message, c.double_ratchet with
  | .Regular _ _, none =>
    some (.error .UnreadableDoubleRatchetMessage, c, rng)
  | .X3DH encryptedMessage, _ =>
    match X3DHClient.decrypt_initial_message P c.x3dh encryptedMessage
        c.their_info c.our_info with
    | .error e => some (.error e, c, rng)
    | .ok (secretKey, decryptedMessage) =>
      let dr := DoubleRatchetClient.respond secretKey c.x3dh.prekey
      match deserializeDRMessage decryptedMessage with
      | none => some (.error .Deserialization, c, rng)
      | some drMessage =>
        let ad := X3DHClient.build_associated_data
          encryptedMessage.identity_key c.x3dh.identity_key.public_key
          c.their_info c.our_info
        match DoubleRatchetClient.attempt_message_decryption P dr rng
            drMessage ad with
        | none => none
        | some (.error e, _, rng') => some (.error e, c, rng')
        | some (.ok content, dr', rng') =>
          let c' := { c with double_ratchet := some dr',
                             unacknowledged_x3dh := none }
          some (.ok content, c', rng')
  | .Regular theirIdentityKey encryptedMessage, some dr =>
    let ad := X3DHClient.build_associated_data theirIdentityKey
      c.x3dh.identity_key.public_key c.their_info c.our_info
    match DoubleRatchetClient.attempt_message_decryption P dr rng
        encryptedMessage ad with
    | none => none
    | some (res, dr', rng') =>
      let c' := { c with double_ratchet := some dr' }
      match res with
      | .error e => some (.error e, c', rng')
      | .ok content =>
        some (.ok content, { c' with unacknowledged_x3dh := none }, rng')

end Client

/-- Pad or truncate to exactly 32 bytes; used by the concrete witness
primitives to model 32-byte Curve25519 outputs. -/
def padTo32 (b : Bytes) : Bytes := (b ++ List.replicate 32 0).take 32

/-- Concrete witness public-key map. -/
def toyPub (p : Bytes) : Bytes := padTo32 p

/-- Concrete witness Diffie-Hellman: commutative by construction. -/
def toyDh (a b : Bytes) : Bytes := padTo32 [a.headD 0 + b.headD 0]

/-- Concrete witness HKDF extract. -/
def toyExtract (salt : Option Bytes) (ikm : Bytes) : Bytes :=
  salt.getD [] ++ 0 :: ikm

/-- Concrete witness HKDF expand. -/
def toyExpand (prk info : Bytes) : Bytes := prk ++ 1 :: info

/-- Concrete witness HMAC. -/
def toyHmac (key input : Bytes) : Bytes := key ++ 2 :: input

/-- Concrete witness AEAD encryption: a reversible framing of key, nonce,
associated data and message; fails on oversized input like `aes_gcm`. -/
def toyEnc (k n ad m : Bytes) : Option Bytes :=
  if k.length < 2 ^ 64 ∧ n.length < 2 ^ 64 ∧ ad.length < 2 ^ 64 ∧
      k.length + n.length + ad.length + m.length + 32 < 2 ^ 64 then
    some (serVec k ++ serVec n ++ serVec ad ++ serVec m)
  else none

/-- Concrete witness AEAD decryption, inverting `toyEnc` and checking key,
nonce and associated data. -/
def toyDec (k n ad ct : Bytes) : Option Bytes :=
  match parseVec ct with
  | none => none
  | some (k1, r1) =>
    match parseVec r1 with
    | none => none
    | some (n1, r2) =>
      match parseVec r2 with
      | none => none
      | some (ad1, r3) =>
        match parseVec r3 with
        | none => none
        | some (m, rest) =>
          if k1 = k ∧ n1 = n ∧ ad1 = ad ∧ rest = [] then some m else none

/-- Concrete witness instantiation of the primitives. -/
def toyPrims : Prims :=
  ⟨toyPub, toyDh, toyExtract, toyExpand, toyHmac, toyEnc, toyDec⟩

/-- Concrete witness rng tape: the n-th draw is the one-byte private key
`[n + 1]`. -/
def toyRng : Rng := ⟨fun n => [n + 1], 0⟩

/-- Concrete state for the C4 witness. -/
def c4dr : DoubleRatchetClient :=
  ⟨⟨[1], padTo32 [1]⟩, none, [4], some [5], none, 0, 0, 0, []⟩

/-- Encryption result for the C4 witness. -/
def c4out : (Except CryptoError DoubleRatchetMessage) × DoubleRatchetClient :=
  match DoubleRatchetClient.encrypt_message toyPrims c4dr [9] [7] with
  | some out => out
  | none => (.error .AEADEncryption, c4dr)

/-- Concrete client for the C2 witness. -/
def c2client : Client := (Client.new toyPrims toyRng [1] [2]).1

/-- Concrete inbound message for the C2 witness: a `Regular` envelope sent to
a client with no Double Ratchet. -/
def c2msg : Message := Message.Regular [3] ⟨⟨padTo32 [4], 0, 0⟩, [5]⟩

/-- Post-state of the C2 witness call. -/
def c2after : Client :=
  match Client.attempt_message_decryption toyPrims c2client toyRng c2msg with
  | some (_, c', _) => c'
  | none => c2client

/-- Responder-mode Double Ratchet state for the C3 counterexample: no
receiving chain key exists. -/
def c3dr : DoubleRatchetClient :=
  DoubleRatchetClient.respond (List.replicate 32 0) ⟨[1], padTo32 [1]⟩

/-- Inbound header for the C3 counterexample: `PN = 33 > MAX_SKIP`. -/
def c3msg : DoubleRatchetMessage := ⟨⟨padTo32 [9], 33, 0⟩, [5]⟩

/-- States of the outer client reachable from a fresh client by any sequence
of non-panicking `create_message` and `attempt_message_decryption` calls
(successful or failing), with arbitrary rngs, peer keys and messages. -/
inductive Reachable (P : Prims) : Client → Prop where
  | fresh : ∀ (rng : Rng) (a b : Bytes), Reachable P (Client.new P rng a b).1
  | created : ∀ c rng ik pk p out, Reachable P c →
      Client.create_message P c rng ik pk p = some out → Reachable P out.2.1
  | decrypted : ∀ c rng msg out, Reachable P c →
      Client.attempt_message_decryption P c rng msg = some out →
      Reachable P out.2.1

/-- Fresh client for the C10 witness. -/
def c10alice : Client := (Client.new toyPrims toyRng [1] [2]).1

/-- Peer client supplying keys for the C10 witness. -/
def c10bob : Client := (Client.new toyPrims ⟨toyRng.tape, 10⟩ [2] [1]).1

/-- State after the C10 witness's first `create_message` call. -/
def c10out : (Except CryptoError Message) × Client × Rng :=
  match Client.create_message toyPrims c10alice ⟨toyRng.tape, 20⟩
      c10bob.x3dh.identity_key.public_key c10bob.x3dh.prekey.public_key [3]
    with
  | some out => out
  | none => (.error .AEADEncryption, c10alice, toyRng)

/-- Client with both slots set, for the C9 witness. -/
def c9client : Client := c10out.2.1

/-- The Double Ratchet stored in `c9client`. -/
def c9dr : DoubleRatchetClient :=
  match c9client.double_ratchet with
  | some d => d
  | none => ⟨⟨[], []⟩, none, [], none, none, 0, 0, 0, []⟩

/-- The unacknowledged pair stored in `c9client`. -/
def c9pair : Bytes × Bytes :=
  match c9client.unacknowledged_x3dh with
  | some x => x
  | none => ([], [])

/-- Result of the C9 witness call. -/
def c9out : (Except CryptoError Message) × Client × Rng :=
  match Client.create_message toyPrims c9client toyRng
      c10bob.x3dh.identity_key.public_key c10bob.x3dh.prekey.public_key [4]
    with
  | some out => out
  | none => (.error .AEADEncryption, c9client, toyRng)

/-- Modelled from the spec: serde/bincode encoding of a Curve25519 keypair
(`StaticSecret` then `PublicKey`), each as its raw 32 bytes; these serde
impls live in the external `x25519_dalek` crate and in the newer
`mizu-crypto` module files absent from the snapshot. -/
def serKeyPair (kp : KeyPair) : Bytes := kp.private_key ++ kp.public_key

/-- Decoder for `serKeyPair`. -/
def parseKeyPair (b : Bytes) : Option (KeyPair × Bytes) :=
  (parseN 32 b).bind fun p1 =>
    (parseN 32 p1.2).map fun p2 => (⟨p1.1, p2.1⟩, p2.2)

/-- Bincode encoding of `X3DHClient`: identity keypair then prekey keypair,
fields in declaration order. -/
def serX3DHClient (x : X3DHClient) : Bytes :=
  serKeyPair x.identity_key ++ serKeyPair x.prekey

/-- Decoder for `serX3DHClient`. -/
def parseX3DHClient (b : Bytes) : Option (X3DHClient × Bytes) :=
  (parseKeyPair b).bind fun p1 =>
    (parseKeyPair p1.2).map fun p2 => (⟨p1.1, p2.1⟩, p2.2)

/-- Bincode encoding of `Option<T>`: a one-byte tag, 0 for `None`, 1 for
`Some`, followed by the payload. -/
def serOpt {α : Type} (f : α → Bytes) : Option α → Bytes
  | none => [0]
  | some v => 1 :: f v

/-- Decoder for `serOpt`. -/
def parseOpt {α : Type} (p : Bytes → Option (α × Bytes)) (b : Bytes) :
    Option (Option α × Bytes) :=
  match b with
  | [] => none
  | t :: r =>
    if t = 0 then some (none, r)
    else if t = 1 then (p r).map fun q => (some q.1, q.2)
    else none

/-- Bincode encoding of `MessageKey`: two raw 32-byte arrays. -/
def serMessageKey (mkey : MessageKey) : Bytes :=
  mkey.key ++ mkey.nonceMaterial

/-- Decoder for `serMessageKey`. -/
def parseMessageKey (b : Bytes) : Option (MessageKey × Bytes) :=
  (parseN 32 b).bind fun p1 =>
    (parseN 32 p1.2).map fun p2 => (⟨p1.1, p2.1⟩, p2.2)

/-- Bincode encoding of one skipped-messages entry
`(SkippedMessagesKey, MessageKey)`. -/
def serSMEntry (e : SkippedMessagesKey × MessageKey) : Bytes :=
  e.1.1 ++ u64le e.1.2 ++ serMessageKey e.2

/-- Decoder for `serSMEntry`. -/
def parseSMEntry (b : Bytes) : Option ((SkippedMessagesKey × MessageKey) × Bytes) :=
  (parseN 32 b).bind fun p1 =>
    (parseU64 p1.2).bind fun p2 =>
      (parseMessageKey p2.2).map fun p3 => (((p1.1, p2.1), p3.1), p3.2)

/-- Concatenated entries of the skipped-messages map. -/
def serSMEntries (m : SkippedMap) : Bytes :=
  m.foldr (fun e acc => serSMEntry e ++ acc) []

/-- Bincode encoding of the skipped-messages `HashMap`: a `u64` entry count
followed by the entries. -/
def serSMap (m : SkippedMap) : Bytes := u64le m.length ++ serSMEntries m

/-- Read `n` skipped-map entries. -/
def parseRepeatSM : Nat → Bytes → Option (SkippedMap × Bytes)
  | 0, b => some ([], b)
  | n + 1, b =>
    (parseSMEntry b).bind fun q =>
      (parseRepeatSM n q.2).map fun r => (q.1 :: r.1, r.2)

/-- Decoder for `serSMap`. -/
def parseSMap (b : Bytes) : Option (SkippedMap × Bytes) :=
  (parseU64 b).bind fun p => parseRepeatSM p.1 p.2

/-- Bincode encoding of `DoubleRatchetClient` state, fields in declaration
order. -/
def serDRState (dr : DoubleRatchetClient) : Bytes :=
  serKeyPair dr.sending_ratchet_keypair ++
  serOpt (fun k => k) dr.receiving_ratchet_key ++
  dr.root_key ++
  serOpt (fun k => k) dr.sending_chain_key ++
  serOpt (fun k => k) dr.receiving_chain_key ++
  u64le dr.sent_count ++
  u64le dr.received_count ++
  u64le dr.previous_sending_chain_count ++
  serSMap dr.skipped_messages

/-- Decoder for `serDRState`. -/
def parseDRState (b : Bytes) : Option (DoubleRatchetClient × Bytes) :=
  (parseKeyPair b).bind fun p1 =>
    (parseOpt (parseN 32) p1.2).bind fun p2 =>
      (parseN 32 p2.2).bind fun p3 =>
        (parseOpt (parseN 32) p3.2).bind fun p4 =>
          (parseOpt (parseN 32) p4.2).bind fun p5 =>
            (parseU64 p5.2).bind fun p6 =>
              (parseU64 p6.2).bind fun p7 =>
                (parseU64 p7.2).bind fun p8 =>
                  (parseSMap p8.2).map fun p9 =>
                    (⟨p1.1, p2.1, p3.1, p4.1, p5.1, p6.1, p7.1, p8.1,
                      p9.1⟩, p9.2)

/-- Bincode encoding of the unacknowledged pair
`(X3DHSecretKey, EphemeralPublicKey)`: two raw 32-byte values. -/
def serPair32 (pr : Bytes × Bytes) : Bytes := pr.1 ++ pr.2

/-- Decoder for `serPair32`. -/
def parsePair32 (b : Bytes) : Option ((Bytes × Bytes) × Bytes) :=
  (parseN 32 b).bind fun q1 =>
    (parseN 32 q1.2).map fun q2 => ((q1.1, q2.1), q2.2)

/-- Bincode encoding of `Client` state, fields in declaration order (the
newer `mizu-crypto/src/lib.rs` derives `Serialize`/`Deserialize` on
`Client`). -/
def serClient (c : Client) : Bytes :=
  serX3DHClient c.x3dh ++
  serOpt serDRState c.double_ratchet ++
  serVec c.our_info ++
  serVec c.their_info ++
  serOpt serPair32 c.unacknowledged_x3dh

/-- Decoder for `serClient`. -/
def parseClient (b : Bytes) : Option (Client × Bytes) :=
  (parseX3DHClient b).bind fun p1 =>
    (parseOpt parseDRState p1.2).bind fun p2 =>
      (parseVec p2.2).bind fun p3 =>
        (parseVec p3.2).bind fun p4 =>
          (parseOpt parsePair32 p4.2).map fun p5 =>
            (⟨p1.1, p2.1, p3.1, p4.1, p5.1⟩, p5.2)

/-- `bincode::deserialize::<Client>`: a full-input decode. -/
def deserializeClient (b : Bytes) : Option Client :=
  match parseClient b with
  | some (c, []) => some c
  | _ => none

/-- Well-formedness of a keypair as produced by the Rust code: 32-byte
private and public keys. -/
def KeyPair.swf (kp : KeyPair) : Prop :=
  kp.private_key.length = 32 ∧ kp.public_key.length = 32

instance : DecidablePred KeyPair.swf := fun _ =>
  inferInstanceAs (Decidable (_ ∧ _))

/-- Well-formedness of a message key: two 32-byte halves. -/
def MessageKey.swf (mkey : MessageKey) : Prop :=
  mkey.key.length = 32 ∧ mkey.nonceMaterial.length = 32

instance : DecidablePred MessageKey.swf := fun _ =>
  inferInstanceAs (Decidable (_ ∧ _))

/-- Well-formedness of a skipped-messages entry. -/
def smEntryWF (e : SkippedMessagesKey × MessageKey) : Prop :=
  e.1.1.length = 32 ∧ e.1.2 < 2 ^ 64 ∧ e.2.swf

instance : DecidablePred smEntryWF := fun _ =>
  inferInstanceAs (Decidable (_ ∧ _ ∧ _))

/-- Well-formedness of Double Ratchet state as produced by the Rust code:
32-byte keys, `u64` counters, and a `HashMap` no larger than `u64`. -/
def DoubleRatchetClient.swf (dr : DoubleRatchetClient) : Prop :=
  dr.sending_ratchet_keypair.swf ∧
  (∀ k, dr.receiving_ratchet_key = some k → k.length = 32) ∧
  dr.root_key.length = 32 ∧
  (∀ k, dr.sending_chain_key = some k → k.length = 32) ∧
  (∀ k, dr.receiving_chain_key = some k → k.length = 32) ∧
  dr.sent_count < 2 ^ 64 ∧
  dr.received_count < 2 ^ 64 ∧
  dr.previous_sending_chain_count < 2 ^ 64 ∧
  dr.skipped_messages.length < 2 ^ 64 ∧
  (∀ e ∈ dr.skipped_messages, smEntryWF e)

/-- Well-formedness of Client state as produced by the Rust code. -/
def Client.swf (c : Client) : Prop :=
  c.x3dh.identity_key.swf ∧
  c.x3dh.prekey.swf ∧
  (∀ d, c.double_ratchet = some d → d.swf) ∧
  c.our_info.length < 2 ^ 64 ∧
  c.their_info.length < 2 ^ 64 ∧
  (∀ pr : Bytes × Bytes, c.unacknowledged_x3dh = some pr →
    pr.1.length = 32 ∧ pr.2.length = 32)

instance optForallDec {α : Type} (o : Option α) (P : α → Prop)
    [DecidablePred P] : Decidable (∀ x, o = some x → P x) :=
  match o with
  | none => isTrue fun _ h => nomatch h
  | some a =>
    if h : P a then isTrue (fun _ hx => (Option.some.inj hx) ▸ h)
    else isFalse (fun hall => h (hall a rfl))

instance : DecidablePred DoubleRatchetClient.swf := fun dr => by
  unfold DoubleRatchetClient.swf
  infer_instance

instance : DecidablePred Client.swf := fun c => by
  unfold Client.swf
  infer_instance

/-- Concrete message for the C8 witness. -/
def c8msg : Message :=
  Message.Regular (padTo32 [1]) ⟨⟨padTo32 [2], 3, 4⟩, [5, 6]⟩

/-- Concrete client state for the C8 witness, with every optional slot
populated and one skipped-message entry. -/
def c8client : Client :=
  ⟨⟨⟨List.replicate 32 1, List.replicate 32 2⟩,
    ⟨List.replicate 32 3, List.replicate 32 4⟩⟩,
   some ⟨⟨List.replicate 32 5, List.replicate 32 6⟩,
     some (List.replicate 32 7), List.replicate 32 8,
     some (List.replicate 32 9), none, 1, 2, 3,
     [((List.replicate 32 10, 0), ⟨List.replicate 32 11,
       List.replicate 32 12⟩)]⟩,
   [13, 14], [15], some (List.replicate 32 16, List.replicate 32 17)⟩

/-- Message produced by the C1 witness's `create_message` call. -/
def c1msg : Message :=
  match Client.create_message toyPrims (Client.new toyPrims toyRng [1] [2]).1
      ⟨toyRng.tape, 40⟩
      (Client.new toyPrims ⟨toyRng.tape, 30⟩ [2] [1]).1.x3dh.identity_key.public_key
      (Client.new toyPrims ⟨toyRng.tape, 30⟩ [2] [1]).1.x3dh.prekey.public_key
      [7] with
  | some (.ok m, _, _) => m
  | _ => Message.X3DH ⟨[], [], []⟩

-- ===== Theorems =====

theorem toLE_length (w n : Nat) : (toLE w n).length = w := by
  induction w generalizing n with
  | zero => rfl
  | succ w ih => simp [toLE, ih]

theorem toLE_wf (w n : Nat) : BytesWF (toLE w n) := by
  induction w generalizing n with
  | zero => intro x hx; simp [toLE] at hx
  | succ w ih =>
    intro x hx
    simp only [toLE, List.mem_cons] at hx
    rcases hx with h | h
    · omega
    · exact ih _ _ h

theorem fromLE_toLE {w n : Nat} (h : n < 256 ^ w) : fromLE (toLE w n) = n := by
  induction w generalizing n with
  | zero => simp [toLE, fromLE]; omega
  | succ w ih =>
    have hlt : n / 256 < 256 ^ w := by
      rw [Nat.div_lt_iff_lt_mul (by omega)]
      calc n < 256 ^ (w + 1) := h
        _ = 256 ^ w * 256 := by ring
    simp [toLE, fromLE, ih hlt]
    omega

theorem toLE_fromLE {w : Nat} {bs : Bytes} (hl : bs.length = w)
    (hwf : BytesWF bs) : toLE w (fromLE bs) = bs := by
  induction w generalizing bs with
  | zero =>
    have : bs = [] := List.length_eq_zero.mp hl
    simp [this, toLE]
  | succ w ih =>
    cases bs with
    | nil => simp at hl
    | cons b bs =>
      have hb : b < 256 := hwf b (by simp)
      have hbs : BytesWF bs := fun x hx => hwf x (by simp [hx])
      have h1 : (b + 256 * fromLE bs) % 256 = b := by omega
      have h2 : (b + 256 * fromLE bs) / 256 = fromLE bs := by omega
      simp only [toLE, fromLE, h1, h2]
      simp only [List.length_cons, Nat.succ.injEq] at hl
      rw [ih hl hbs]

theorem fromLE_lt {w : Nat} {bs : Bytes} (hl : bs.length = w)
    (hwf : BytesWF bs) : fromLE bs < 256 ^ w := by
  induction w generalizing bs with
  | zero =>
    have : bs = [] := List.length_eq_zero.mp hl
    simp [this, fromLE]
  | succ w ih =>
    cases bs with
    | nil => simp at hl
    | cons b bs =>
      have hb : b < 256 := hwf b (by simp)
      have hbs : BytesWF bs := fun x hx => hwf x (by simp [hx])
      simp only [List.length_cons, Nat.succ.injEq] at hl
      have := ih hl hbs
      simp only [fromLE]
      calc b + 256 * fromLE bs < 256 + 256 * fromLE bs := by omega
        _ = 256 * (fromLE bs + 1) := by ring
        _ ≤ 256 * 256 ^ w := by
            have : fromLE bs + 1 ≤ 256 ^ w := this
            exact Nat.mul_le_mul_left _ this
        _ = 256 ^ (w + 1) := by ring

theorem bytesWF_append {a b : Bytes} :
    BytesWF (a ++ b) ↔ BytesWF a ∧ BytesWF b := by
  simp only [BytesWF, List.mem_append]
  constructor
  · intro h; exact ⟨fun x hx => h x (Or.inl hx), fun x hx => h x (Or.inr hx)⟩
  · rintro ⟨h1, h2⟩ x (hx | hx)
    · exact h1 x hx
    · exact h2 x hx

theorem parseN_append {a : Bytes} {n : Nat} (b : Bytes) (hl : a.length = n) :
    parseN n (a ++ b) = some (a, b) := by
  subst hl
  simp [parseN, List.take_left, List.drop_left]

theorem parseN_sound {n : Nat} {b v rest : Bytes}
    (h : parseN n b = some (v, rest)) : v ++ rest = b ∧ v.length = n := by
  simp only [parseN] at h
  split at h
  · rename_i hle
    simp only [Option.some.injEq, Prod.mk.injEq] at h
    obtain ⟨hv, hr⟩ := h
    subst hv; subst hr
    exact ⟨List.take_append_drop n b, by simp [List.length_take]; omega⟩
  · exact absurd h (by simp)

theorem parseU64_append {k : Nat} (b : Bytes) (hk : k < 2 ^ 64) :
    parseU64 (u64le k ++ b) = some (k, b) := by
  have h8 : (256 : Nat) ^ 8 = 2 ^ 64 := by norm_num
  have hk8 : k < 256 ^ 8 := by rw [h8]; exact hk
  simp [parseU64, u64le, parseN_append b (toLE_length 8 k), fromLE_toLE hk8]

theorem parseU64_sound {b rest : Bytes} {k : Nat}
    (h : parseU64 b = some (k, rest)) (hwf : BytesWF b) :
    u64le k ++ rest = b ∧ k < 2 ^ 64 := by
  simp only [parseU64, Option.map_eq_some'] at h
  obtain ⟨⟨v, r⟩, hp, heq⟩ := h
  simp only [Prod.mk.injEq] at heq
  obtain ⟨hk, hr⟩ := heq
  obtain ⟨hvr, hvl⟩ := parseN_sound hp
  have hvwf : BytesWF v := (bytesWF_append.mp (hvr ▸ hwf)).1
  have h8 : (256 : Nat) ^ 8 = 2 ^ 64 := by norm_num
  subst hk; subst hr
  refine ⟨?_, h8 ▸ fromLE_lt hvl hvwf⟩
  rw [u64le, toLE_fromLE hvl hvwf, hvr]

theorem parseU32_append {k : Nat} (b : Bytes) (hk : k < 2 ^ 32) :
    parseU32 (u32le k ++ b) = some (k, b) := by
  have h4 : (256 : Nat) ^ 4 = 2 ^ 32 := by norm_num
  have hk4 : k < 256 ^ 4 := by rw [h4]; exact hk
  simp [parseU32, u32le, parseN_append b (toLE_length 4 k), fromLE_toLE hk4]

theorem parseU32_sound {b rest : Bytes} {k : Nat}
    (h : parseU32 b = some (k, rest)) (hwf : BytesWF b) :
    u32le k ++ rest = b ∧ k < 2 ^ 32 := by
  simp only [parseU32, Option.map_eq_some'] at h
  obtain ⟨⟨v, r⟩, hp, heq⟩ := h
  simp only [Prod.mk.injEq] at heq
  obtain ⟨hk, hr⟩ := heq
  obtain ⟨hvr, hvl⟩ := parseN_sound hp
  have hvwf : BytesWF v := (bytesWF_append.mp (hvr ▸ hwf)).1
  have h4 : (256 : Nat) ^ 4 = 2 ^ 32 := by norm_num
  subst hk; subst hr
  refine ⟨?_, h4 ▸ fromLE_lt hvl hvwf⟩
  rw [u32le, toLE_fromLE hvl hvwf, hvr]

theorem parseVec_append {v : Bytes} (b : Bytes) (hv : v.length < 2 ^ 64) :
    parseVec (serVec v ++ b) = some (v, b) := by
  simp only [serVec, List.append_assoc]
  simp [parseVec, parseU64_append (v ++ b) hv, parseN_append b rfl]

theorem parseVec_sound {b v rest : Bytes}
    (h : parseVec b = some (v, rest)) (hwf : BytesWF b) :
    serVec v ++ rest = b ∧ v.length < 2 ^ 64 := by
  simp only [parseVec, Option.bind_eq_some] at h
  obtain ⟨⟨n, r1⟩, hu, hn⟩ := h
  obtain ⟨hur, hlt⟩ := parseU64_sound hu hwf
  obtain ⟨hvr, hvl⟩ := parseN_sound hn
  subst hvl
  refine ⟨?_, by omega⟩
  rw [serVec, List.append_assoc, hvr, hur]

theorem parseKey_append {k : Bytes} (b : Bytes) (hk : k.length = 32) :
    parseKey (serKey k ++ b) = some (k, b) := by
  simp [parseKey, serKey, parseN_append b hk]

theorem parseKey_sound {b v rest : Bytes}
    (h : parseKey b = some (v, rest)) : serKey v ++ rest = b ∧ v.length = 32 :=
  parseN_sound h

theorem parseDRHeader_append {h : DoubleRatchetMessageHeader} (b : Bytes)
    (hwf : h.wf) : parseDRHeader (serDRHeader h ++ b) = some (h, b) := by
  obtain ⟨h1, h2, h3⟩ := hwf
  simp only [serDRHeader, List.append_assoc]
  rw [parseDRHeader, parseKey_append _ h1]
  simp only [Option.bind_eq_bind, Option.some_bind]
  rw [parseU64_append _ h2]
  simp only [Option.some_bind]
  rw [parseU64_append _ h3]
  rfl

theorem parseDRHeader_sound {b rest : Bytes} {h : DoubleRatchetMessageHeader}
    (hp : parseDRHeader b = some (h, rest)) (hwf : BytesWF b) :
    serDRHeader h ++ rest = b ∧ h.wf := by
  simp only [parseDRHeader, Option.bind_eq_some, Option.map_eq_some'] at hp
  obtain ⟨⟨k, r1⟩, hk, ⟨⟨pn, r2⟩, hpn, ⟨⟨ns, r3⟩, hns, heq⟩⟩⟩ := hp
  dsimp only at hpn hns heq
  simp only [Prod.mk.injEq] at heq
  obtain ⟨hh, hr⟩ := heq
  obtain ⟨hkr, hkl⟩ := parseKey_sound hk
  have hr1 : BytesWF r1 := (bytesWF_append.mp (hkr ▸ hwf)).2
  obtain ⟨hpr, hplt⟩ := parseU64_sound hpn hr1
  have hr2 : BytesWF r2 := (bytesWF_append.mp (hpr ▸ hr1)).2
  obtain ⟨hnr, hnlt⟩ := parseU64_sound hns hr2
  subst hh; subst hr
  constructor
  · rw [serDRHeader]
    simp only [List.append_assoc]
    rw [hnr, hpr, hkr]
  · exact ⟨hkl, hplt, hnlt⟩

theorem parseDRMessage_append {m : DoubleRatchetMessage} (b : Bytes)
    (hwf : m.wf) : parseDRMessage (serDRMessage m ++ b) = some (m, b) := by
  obtain ⟨h1, h2⟩ := hwf
  simp only [serDRMessage, List.append_assoc]
  rw [parseDRMessage, parseDRHeader_append _ h1]
  simp only [Option.bind_eq_bind, Option.some_bind]
  rw [parseVec_append _ h2]
  rfl

theorem parseDRMessage_sound {b rest : Bytes} {m : DoubleRatchetMessage}
    (hp : parseDRMessage b = some (m, rest)) (hwf : BytesWF b) :
    serDRMessage m ++ rest = b ∧ m.wf := by
  simp only [parseDRMessage, Option.bind_eq_some, Option.map_eq_some'] at hp
  obtain ⟨⟨h, r1⟩, hh, ⟨⟨ct, r2⟩, hct, heq⟩⟩ := hp
  dsimp only at hct heq
  simp only [Prod.mk.injEq] at heq
  obtain ⟨hm, hr⟩ := heq
  obtain ⟨hhr, hhwf⟩ := parseDRHeader_sound hh hwf
  have hr1 : BytesWF r1 := (bytesWF_append.mp (hhr ▸ hwf)).2
  obtain ⟨hcr, hclt⟩ := parseVec_sound hct hr1
  subst hm; subst hr
  constructor
  · rw [serDRMessage]
    simp only [List.append_assoc]
    rw [hcr, hhr]
  · exact ⟨hhwf, hclt⟩

theorem parseX3DHMessage_append {m : X3DHMessage} (b : Bytes)
    (hwf : m.wf) : parseX3DHMessage (serX3DHMessage m ++ b) = some (m, b) := by
  obtain ⟨h1, h2, h3⟩ := hwf
  simp only [serX3DHMessage, List.append_assoc]
  rw [parseX3DHMessage, parseKey_append _ h1]
  simp only [Option.bind_eq_bind, Option.some_bind]
  rw [parseKey_append _ h2]
  simp only [Option.some_bind]
  rw [parseVec_append _ h3]
  rfl

theorem parseX3DHMessage_sound {b rest : Bytes} {m : X3DHMessage}
    (hp : parseX3DHMessage b = some (m, rest)) (hwf : BytesWF b) :
    serX3DHMessage m ++ rest = b ∧ m.wf := by
  simp only [parseX3DHMessage, Option.bind_eq_some, Option.map_eq_some'] at hp
  obtain ⟨⟨ik, r1⟩, hik, ⟨⟨ek, r2⟩, hek, ⟨⟨ct, r3⟩, hct, heq⟩⟩⟩ := hp
  dsimp only at hek hct heq
  simp only [Prod.mk.injEq] at heq
  obtain ⟨hm, hr⟩ := heq
  obtain ⟨hikr, hikl⟩ := parseKey_sound hik
  have hr1 : BytesWF r1 := (bytesWF_append.mp (hikr ▸ hwf)).2
  obtain ⟨hekr, hekl⟩ := parseKey_sound hek
  have hr2 : BytesWF r2 := (bytesWF_append.mp (hekr ▸ hr1)).2
  obtain ⟨hcr, hclt⟩ := parseVec_sound hct hr2
  subst hm; subst hr
  constructor
  · rw [serX3DHMessage]
    simp only [List.append_assoc]
    rw [hcr, hekr, hikr]
  · exact ⟨hikl, hekl, hclt⟩

theorem parseMessage_append {m : Message} (b : Bytes)
    (hwf : m.wf) : parseMessage (serMessage m ++ b) = some (m, b) := by
  cases m with
  | X3DH x =>
    simp only [serMessage, List.append_assoc]
    rw [parseMessage, parseU32_append _ (by norm_num)]
    simp only [Option.bind_eq_bind, Option.some_bind, if_pos rfl]
    rw [parseX3DHMessage_append _ hwf]
    rfl
  | Regular ik dm =>
    obtain ⟨h1, h2⟩ := hwf
    simp only [serMessage, List.append_assoc]
    rw [parseMessage, parseU32_append _ (by norm_num)]
    simp only [Option.bind_eq_bind, Option.some_bind]
    rw [if_neg (by norm_num), if_pos trivial, parseKey_append _ h1]
    simp only [Option.some_bind]
    rw [parseDRMessage_append _ h2]
    rfl

theorem parseMessage_sound {b rest : Bytes} {m : Message}
    (hp : parseMessage b = some (m, rest)) (hwf : BytesWF b) :
    serMessage m ++ rest = b ∧ m.wf := by
  simp only [parseMessage, Option.bind_eq_some] at hp
  obtain ⟨⟨t, r1⟩, ht, hrest⟩ := hp
  dsimp only at hrest
  obtain ⟨htr, htlt⟩ := parseU32_sound ht hwf
  have hr1 : BytesWF r1 := (bytesWF_append.mp (htr ▸ hwf)).2
  split at hrest
  · rename_i ht0
    simp only [Option.map_eq_some'] at hrest
    obtain ⟨⟨x, r2⟩, hx, heq⟩ := hrest
    simp only [Prod.mk.injEq] at heq
    obtain ⟨hm, hr⟩ := heq
    obtain ⟨hxr, hxwf⟩ := parseX3DHMessage_sound hx hr1
    subst hm; subst hr; subst ht0
    constructor
    · rw [serMessage]
      simp only [List.append_assoc]
      rw [hxr, htr]
    · exact hxwf
  · split at hrest
    · rename_i ht1
      simp only [Option.bind_eq_some, Option.map_eq_some'] at hrest
      obtain ⟨⟨ik, r2⟩, hik, ⟨⟨dm, r3⟩, hdm, heq⟩⟩ := hrest
      simp only [Prod.mk.injEq] at heq
      obtain ⟨hm, hr⟩ := heq
      obtain ⟨hikr, hikl⟩ := parseKey_sound hik
      have hr2 : BytesWF r2 := (bytesWF_append.mp (hikr ▸ hr1)).2
      obtain ⟨hdr, hdwf⟩ := parseDRMessage_sound hdm hr2
      subst hm; subst hr; subst ht1
      constructor
      · rw [serMessage]
        simp only [List.append_assoc]
        rw [hdr, hikr, htr]
      · exact ⟨hikl, hdwf⟩
    · exact absurd hrest (by simp)

theorem deserializeDRMessage_serialize {m : DoubleRatchetMessage}
    (hwf : m.wf) : deserializeDRMessage (serDRMessage m) = some m := by
  have := parseDRMessage_append [] hwf
  rw [List.append_nil] at this
  rw [deserializeDRMessage, this]

theorem deserializeMessage_serialize {m : Message}
    (hwf : m.wf) : deserializeMessage (serMessage m) = some m := by
  have := parseMessage_append [] hwf
  rw [List.append_nil] at this
  rw [deserializeMessage, this]

theorem serializeMessage_deserialize {b : Bytes} {m : Message}
    (h : deserializeMessage b = some m) (hwf : BytesWF b) : serMessage m = b := by
  rw [deserializeMessage] at h
  split at h
  · rename_i heq
    obtain ⟨hser, _⟩ := parseMessage_sound heq hwf
    simp only [Option.some.injEq] at h
    subst h
    simpa using hser
  · exact absurd h (by simp)

theorem padTo32_length (b : Bytes) : (padTo32 b).length = 32 := by
  simp [padTo32]

theorem padTo32_headD (b : Bytes) : (padTo32 b).headD 0 = b.headD 0 := by
  cases b with
  | nil => rfl
  | cons x xs => rfl

theorem padTo32_headOpt (b : Bytes) : (padTo32 b).head?.getD 0 = b.head?.getD 0 := by
  cases b with
  | nil => rfl
  | cons x xs => rfl

theorem toyPrims_sound : toyPrims.Sound := by
  constructor
  · intro a b
    show toyDh a (toyPub b) = toyDh b (toyPub a)
    simp [toyDh, toyPub, padTo32_headOpt, Nat.add_comm]
  · intro k n ad m ct henc
    show toyDec k n ad ct = some m
    rw [toyPrims] at henc
    simp only at henc
    rw [toyEnc] at henc
    split at henc
    · rename_i hcond
      obtain ⟨h1, h2, h3, h4⟩ := hcond
      simp only [Option.some.injEq] at henc
      subst henc
      rw [toyDec]
      rw [List.append_assoc, List.append_assoc]
      rw [parseVec_append _ h1]
      simp only
      rw [parseVec_append _ h2]
      simp only
      rw [parseVec_append _ h3]
      simp only
      have hm : m.length < 2 ^ 64 := by omega
      have := parseVec_append (v := m) [] hm
      rw [List.append_nil] at this
      rw [this]
      simp
    · exact absurd henc (by simp)
  · intro p
    exact padTo32_length p
  · intro k n ad m ct henc
    rw [toyPrims] at henc
    simp only at henc
    rw [toyEnc] at henc
    split at henc
    · rename_i hcond
      simp only [Option.some.injEq] at henc
      subst henc
      simp only [List.length_append, serVec, u64le, toLE_length]
      omega
    · exact absurd henc (by simp)

/-- C5: for every root key and DH output, the two 32-byte outputs of one root
KDF step `RootKey::kdf` — the new root key and the returned chain key — are
equal, both being the HKDF-SHA256 expansion with salt the old root key, input
keying material the DH output, and info `MizuProtocolRootKey`. -/
theorem C5_root_kdf_outputs_equal (P : Prims) (rk ss : Bytes) :
    (RootKey.kdf P rk ss).1 = (RootKey.kdf P rk ss).2 ∧
    (RootKey.kdf P rk ss).1 =
      P.hkdfExpand (P.hkdfExtract (some rk) ss) INFO_RK := ⟨rfl, rfl⟩

/-- C4: one symmetric chain step `ChainKey::kdf` returns the message key
`HMAC(ck, 0x01)` paired with nonce material `HMAC(ck, 0x03)` and replaces the
stored chain key with `HMAC(ck, 0x02)` (visible in `encrypt_message`, which
advances the sending chain key in place); the AEAD nonce used by both
`encrypt` and `decrypt` is exactly the first 12 bytes of the nonce
material. -/
theorem C4_chain_kdf (P : Prims) (ck : Bytes) :
    ChainKey.kdf P ck = (⟨P.hmac ck [1], P.hmac ck [3]⟩, P.hmac ck [2]) ∧
    (∀ mkey pt ad, DoubleRatchetClient.encrypt P mkey pt ad =
      P.aeadEnc mkey.key (mkey.nonceMaterial.take 12) ad pt) ∧
    (∀ mkey ct ad, DoubleRatchetClient.decrypt P mkey ct ad =
      P.aeadDec mkey.key (mkey.nonceMaterial.take 12) ad ct) ∧
    (∀ dr pt ad out, dr.sending_chain_key = some ck →
      DoubleRatchetClient.encrypt_message P dr pt ad = some out →
      out.2.sending_chain_key = some (P.hmac ck [2])) := by
  refine ⟨rfl, fun _ _ _ => rfl, fun _ _ _ => rfl, ?_⟩
  intro dr pt ad out hck h
  rw [DoubleRatchetClient.encrypt_message, hck] at h
  simp only at h
  split at h
  · simp only [Option.some.injEq] at h
    subst h
    rfl
  · simp only [Option.some.injEq] at h
    subst h
    rfl

theorem C4_chain_kdf_witness :
    c4dr.sending_chain_key = some [5] ∧
    DoubleRatchetClient.encrypt_message toyPrims c4dr [9] [7] = some c4out ∧
    c4out.2.sending_chain_key = some (toyPrims.hmac [5] [2]) :=
  ⟨rfl, rfl, (C4_chain_kdf toyPrims [5]).2.2.2 c4dr [9] [7] c4out rfl rfl⟩

/-- C6: the three 32-byte outputs of `X3DHClient::kdf` are pairwise equal
(the same HKDF-SHA256 expansion with info `MizuProtocol` three times);
consequently in `construct_initial_message` and `decrypt_initial_message` the
AES-256-GCM key is the first kdf output applied to the shared secret, the
nonce material equals that same key, and the envelope nonce is the first 12
bytes of the AEAD key. -/
theorem C6_x3dh_kdf_outputs_equal (P : Prims) :
    (∀ input, (X3DHClient.kdf P input).1 = (X3DHClient.kdf P input).2.1 ∧
      (X3DHClient.kdf P input).2.1 = (X3DHClient.kdf P input).2.2) ∧
    (∀ cl content sk ek ad,
      X3DHClient.construct_initial_message P cl content sk ek ad =
        (P.aeadEnc (X3DHClient.kdf P sk).1
          ((X3DHClient.kdf P sk).1.take 12) ad content).map
          (fun ct => ⟨cl.identity_key.public_key, ek, ct⟩)) ∧
    (∀ cl msg si ri,
      X3DHClient.decrypt_initial_message P cl msg si ri =
        (let sk := (X3DHClient.kdf P
            (P.dh cl.prekey.private_key msg.identity_key ++
             P.dh cl.identity_key.private_key msg.ephemeral_key ++
             P.dh cl.prekey.private_key msg.ephemeral_key)).1
         match P.aeadDec (X3DHClient.kdf P sk).1
             ((X3DHClient.kdf P sk).1.take 12)
             (X3DHClient.build_associated_data msg.identity_key
               cl.identity_key.public_key si ri) msg.ciphertext with
         | some pt => .ok (sk, pt)
         | none => .error .AEADDecryption)) := by
  refine ⟨fun _ => ⟨rfl, rfl⟩, fun cl content sk ek ad => ?_, fun _ _ _ _ => rfl⟩
  have hnb : (X3DHClient.kdf P sk).2.2 = (X3DHClient.kdf P sk).1 := rfl
  rw [X3DHClient.construct_initial_message, hnb]
  cases P.aeadEnc (X3DHClient.kdf P sk).1 ((X3DHClient.kdf P sk).1.take 12) ad
    content with
  | none => rfl
  | some ct => rfl

/-- C7: the serialized form of every `Message` matches the spec grammar: a
32-bit little-endian discriminant (0 for `X3DH`, 1 for `Regular`, in
declaration order) followed by the fields in declaration order, public keys
as raw 32 bytes with no length prefix, the counters as 64-bit little-endian
integers, and the ciphertext as a 64-bit little-endian length followed by its
bytes. -/
theorem C7_wire_grammar :
    (∀ m : X3DHMessage, serMessage (.X3DH m) =
      u32le 0 ++ m.identity_key ++ m.ephemeral_key ++
        u64le m.ciphertext.length ++ m.ciphertext) ∧
    (∀ (ik : Bytes) (dm : DoubleRatchetMessage),
      serMessage (.Regular ik dm) =
        u32le 1 ++ ik ++ dm.header.ratchet_public_key ++
          u64le dm.header.previous_sending_chain_count ++
          u64le dm.header.sent_count ++
          u64le dm.ciphertext.length ++ dm.ciphertext) := by
  constructor
  · intro m
    simp [serMessage, serX3DHMessage, serKey, serVec, List.append_assoc]
  · intro ik dm
    simp [serMessage, serDRMessage, serDRHeader, serKey, serVec,
      List.append_assoc]

theorem dr_attempt_error_eq (P : Prims) (dr : DoubleRatchetClient) (rng : Rng)
    (msg : DoubleRatchetMessage) (ad : Bytes) (e : CryptoError)
    (dr' : DoubleRatchetClient) (rng' : Rng)
    (h : DoubleRatchetClient.attempt_message_decryption P dr rng msg ad =
      some (.error e, dr', rng')) : dr' = dr := by
  rw [DoubleRatchetClient.attempt_message_decryption] at h
  simp only at h
  split at h
  · split at h
    · simp only [Option.some.injEq, Prod.mk.injEq] at h
      exact h.2.1.symm
    · simp at h
  · split at h
    · simp at h
    · simp only [Option.some.injEq, Prod.mk.injEq] at h
      exact h.2.1.symm
    · split at h
      · simp at h
      · simp only [Option.some.injEq, Prod.mk.injEq] at h
        exact h.2.1.symm
      · split at h
        · simp at h
        · split at h
          · simp only [Option.some.injEq, Prod.mk.injEq] at h
            exact h.2.1.symm
          · simp at h

/-- C2: whenever `Client::attempt_message_decryption` (or the underlying
`DoubleRatchetClient::attempt_message_decryption`) returns any error, the
state after the call equals the state before: no mutation of the X3DH agent,
the Double Ratchet agent, or the unacknowledged-X3DH slot is visible. -/
theorem C2_decryption_errors_transactional (P : Prims) :
    (∀ dr rng msg ad e dr' rng',
      DoubleRatchetClient.attempt_message_decryption P dr rng msg ad =
        some (.error e, dr', rng') → dr' = dr) ∧
    (∀ c rng msg e c' rng',
      Client.attempt_message_decryption P c rng msg =
        some (.error e, c', rng') → c' = c) := by
  refine ⟨fun dr rng msg ad e dr' rng' h =>
    dr_attempt_error_eq P dr rng msg ad e dr' rng' h, ?_⟩
  intro c rng msg e c' rng' h
  rw [Client.attempt_message_decryption.eq_def] at h
  split at h
  · simp only [Option.some.injEq, Prod.mk.injEq] at h
    exact h.2.1.symm
  · simp only at h
    split at h
    · simp only [Option.some.injEq, Prod.mk.injEq] at h
      exact h.2.1.symm
    · split at h
      · simp only [Option.some.injEq, Prod.mk.injEq] at h
        exact h.2.1.symm
      · split at h
        · simp at h
        · simp only [Option.some.injEq, Prod.mk.injEq] at h
          exact h.2.1.symm
        · simp at h
  · rename_i theirIdentityKey encryptedMessage dr hdr
    simp only at h
    split at h
    · simp at h
    · rename_i res dr2 rng2 hattempt
      cases res with
      | ok v => simp at h
      | error e0 =>
        simp only [Option.some.injEq, Prod.mk.injEq] at h
        obtain ⟨_, hc, _⟩ := h
        have hdr2 : dr2 = dr :=
          dr_attempt_error_eq P dr rng encryptedMessage _ e0 dr2 rng2 hattempt
        subst hdr2
        cases c with
        | mk x3dh double_ratchet our_info their_info unack =>
          simp only at hdr
          subst hdr
          exact hc.symm

theorem C2_decryption_errors_transactional_witness :
    Client.attempt_message_decryption toyPrims c2client toyRng c2msg =
      some (.error .UnreadableDoubleRatchetMessage, c2after, toyRng) ∧
    c2after = c2client :=
  ⟨rfl, (C2_decryption_errors_transactional toyPrims).2 c2client toyRng c2msg
    .UnreadableDoubleRatchetMessage c2after toyRng rfl⟩

theorem smInsert_length (k : SkippedMessagesKey) (v : MessageKey)
    (m : SkippedMap) : (smInsert k v m).length ≤ m.length + 1 := by
  simp only [smInsert, smRemoveKey, List.length_cons]
  have := List.length_filter_le (fun e : SkippedMessagesKey × MessageKey =>
    decide (e.1 ≠ k)) m
  omega

theorem skipChain_spec (P : Prims) (rk : Bytes) (fuel : Nat) :
    ∀ ck received skipped,
      (DoubleRatchetClient.skipChain P rk fuel ck received skipped).2.1 =
        received + fuel ∧
      (DoubleRatchetClient.skipChain P rk fuel ck received
        skipped).2.2.length ≤ skipped.length + fuel := by
  induction fuel with
  | zero => intro ck received skipped; simp [DoubleRatchetClient.skipChain]
  | succ n ih =>
    intro ck received skipped
    rw [DoubleRatchetClient.skipChain]
    obtain ⟨h1, h2⟩ := ih (ChainKey.kdf P ck).2 (received + 1)
      (smInsert (rk, received) (ChainKey.kdf P ck).1 skipped)
    constructor
    · rw [h1]; omega
    · have := smInsert_length (rk, received) (ChainKey.kdf P ck).1 skipped
      omega

theorem skip_err_iff (P : Prims) (dr : DoubleRatchetClient) (upto : Nat) :
    DoubleRatchetClient.skip_message_keys P dr upto =
      some (.error .TooManySkippedMessages) ↔
    dr.received_count + MAX_SKIP < upto := by
  rw [DoubleRatchetClient.skip_message_keys]
  split
  · simp_all
  · rename_i hgate
    simp only [hgate, iff_false]
    split
    · simp
    · split
      · split
        · simp
        · simp
      · simp

theorem skip_err_kind (P : Prims) (dr : DoubleRatchetClient) (upto : Nat)
    (e : CryptoError)
    (h : DoubleRatchetClient.skip_message_keys P dr upto = some (.error e)) :
    e = .TooManySkippedMessages := by
  rw [DoubleRatchetClient.skip_message_keys] at h
  split at h
  · simp only [Option.some.injEq, Except.error.injEq] at h
    exact h.symm
  · split at h
    · simp at h
    · split at h
      · split at h
        · simp at h
        · simp at h
      · simp at h

theorem skip_ok_not_gate (P : Prims) (dr dr' : DoubleRatchetClient)
    (upto : Nat)
    (h : DoubleRatchetClient.skip_message_keys P dr upto = some (.ok dr')) :
    ¬ dr.received_count + MAX_SKIP < upto := by
  intro hgate
  rw [DoubleRatchetClient.skip_message_keys, if_pos hgate] at h
  simp at h

theorem skip_ok_spec (P : Prims) (dr dr' : DoubleRatchetClient) (upto : Nat)
    (h : DoubleRatchetClient.skip_message_keys P dr upto = some (.ok dr')) :
    dr'.skipped_messages.length ≤ dr.skipped_messages.length + MAX_SKIP ∧
    (dr.receiving_chain_key = none → dr' = dr) := by
  have hng := skip_ok_not_gate P dr dr' upto h
  rw [DoubleRatchetClient.skip_message_keys, if_neg hng] at h
  split at h
  · rename_i hnone
    simp only [Option.some.injEq, Except.ok.injEq] at h
    subst h
    exact ⟨by omega, fun _ => rfl⟩
  · rename_i ck hsome
    split at h
    · split at h
      · simp at h
      · rename_i rk hrk
        simp only [Option.some.injEq, Except.ok.injEq] at h
        subst h
        refine ⟨?_, fun hc => by rw [hc] at hsome; exact absurd hsome (by simp)⟩
        have := (skipChain_spec P rk (upto - dr.received_count) ck
          dr.received_count dr.skipped_messages).2
        simp only
        rw [MAX_SKIP] at hng ⊢
        omega
    · simp only [Option.some.injEq, Except.ok.injEq] at h
      subst h
      exact ⟨by omega, fun _ => rfl⟩

/-- C3 (amended): `skip_message_keys` fails with `TooManySkippedMessages`
exactly when `received_count + MAX_SKIP < until` — this check precedes and is
independent of the existence of a receiving chain key (in particular it fires
even when no receiving chain key exists and no keys would be skipped) — and a
successful skip stores at most `MAX_SKIP` new skipped keys (none when no
receiving chain key exists); consequently `attempt_message_decryption`
returns `TooManySkippedMessages` exactly when the header misses the
skipped-key store and the corresponding gate trips: against `PN` with the
current receive counter (or, if that passes, against `N_s` with the counter
reset to 0) when the header carries a new ratchet key, and against `N_s` with
the current receive counter otherwise. -/
theorem C3_too_many_skipped (P : Prims) :
    (∀ dr upto, DoubleRatchetClient.skip_message_keys P dr upto =
        some (.error .TooManySkippedMessages) ↔
      dr.received_count + MAX_SKIP < upto) ∧
    (∀ dr upto e, DoubleRatchetClient.skip_message_keys P dr upto =
        some (.error e) → e = .TooManySkippedMessages) ∧
    (∀ dr upto dr', DoubleRatchetClient.skip_message_keys P dr upto =
        some (.ok dr') →
      dr'.skipped_messages.length ≤ dr.skipped_messages.length + MAX_SKIP ∧
      (dr.receiving_chain_key = none → dr' = dr)) ∧
    (∀ dr rng msg ad out,
      DoubleRatchetClient.attempt_message_decryption P dr rng msg ad =
        some out →
      (out.1 = .error .TooManySkippedMessages ↔
        smLookup (msg.header.ratchet_public_key, msg.header.sent_count)
          dr.skipped_messages = none ∧
        (if some msg.header.ratchet_public_key ≠ dr.receiving_ratchet_key then
          dr.received_count + MAX_SKIP <
            msg.header.previous_sending_chain_count ∨
          (¬ dr.received_count + MAX_SKIP <
              msg.header.previous_sending_chain_count ∧
            MAX_SKIP < msg.header.sent_count)
        else dr.received_count + MAX_SKIP < msg.header.sent_count))) := by
  refine ⟨skip_err_iff P, skip_err_kind P, fun dr upto dr' h =>
    skip_ok_spec P dr dr' upto h, ?_⟩
  intro dr rng msg ad out h
  rw [DoubleRatchetClient.attempt_message_decryption] at h
  simp only at h
  split at h
  · rename_i mkey hlk
    split at h
    · simp only [Option.some.injEq] at h
      subst h
      simp [hlk]
    · simp only [Option.some.injEq] at h
      subst h
      simp [hlk]
  · rename_i hlk
    split at h
    · simp at h
    · rename_i e rng2 hstep
      simp only [Option.some.injEq] at h
      subst h
      split at hstep
      · rename_i hrd
        split at hstep
        · simp at hstep
        · rename_i e1 he1
          simp only [Option.some.injEq, Prod.mk.injEq,
            Except.error.injEq] at hstep
          obtain ⟨hee, -⟩ := hstep
          subst hee
          have hek := skip_err_kind P dr
            msg.header.previous_sending_chain_count _ he1
          subst hek
          have hgate1 := (skip_err_iff P dr
            msg.header.previous_sending_chain_count).mp he1
          exact ⟨fun _ => ⟨hlk, by rw [if_pos hrd]; exact Or.inl hgate1⟩,
            fun _ => rfl⟩
        · simp at hstep
      · rename_i hrd
        simp at hstep
    · rename_i s3 rng2 hstep
      split at hstep
      · rename_i hrd
        split at hstep
        · simp at hstep
        · simp at hstep
        · rename_i s1 hs1
          simp only [Option.some.injEq, Prod.mk.injEq,
            Except.ok.injEq] at hstep
          obtain ⟨hs3, -⟩ := hstep
          have hng1 := skip_ok_not_gate P dr s1
            msg.header.previous_sending_chain_count hs1
          have hrc : s3.received_count = 0 := by rw [← hs3]
          split at h
          · simp at h
          · rename_i e2 he2
            have hek2 := skip_err_kind P s3 msg.header.sent_count e2 he2
            subst hek2
            have hgate2 := (skip_err_iff P s3 msg.header.sent_count).mp he2
            rw [hrc] at hgate2
            simp only [Option.some.injEq] at h
            subst h
            refine ⟨fun _ => ⟨hlk, ?_⟩, fun _ => rfl⟩
            rw [if_pos hrd]
            refine Or.inr ⟨hng1, ?_⟩
            simp only [MAX_SKIP] at hgate2 ⊢
            omega
          · rename_i s4 hs4
            have hng2 := skip_ok_not_gate P s3 s4 msg.header.sent_count hs4
            rw [hrc] at hng2
            split at h
            · simp at h
            · split at h
              · simp only [Option.some.injEq] at h
                subst h
                refine iff_of_false (by simp) ?_
                rintro ⟨-, hcase⟩
                rw [if_pos hrd] at hcase
                rcases hcase with hg1 | ⟨-, hg2⟩
                · exact hng1 hg1
                · exact hng2 (by omega)
              · simp only [Option.some.injEq] at h
                subst h
                refine iff_of_false (by simp) ?_
                rintro ⟨-, hcase⟩
                rw [if_pos hrd] at hcase
                rcases hcase with hg1 | ⟨-, hg2⟩
                · exact hng1 hg1
                · exact hng2 (by omega)
      · rename_i hrd
        simp only [Option.some.injEq, Prod.mk.injEq, Except.ok.injEq] at hstep
        obtain ⟨hs3, -⟩ := hstep
        subst hs3
        split at h
        · simp at h
        · rename_i e2 he2
          have hek2 := skip_err_kind P dr msg.header.sent_count e2 he2
          subst hek2
          have hgate2 := (skip_err_iff P dr msg.header.sent_count).mp he2
          simp only [Option.some.injEq] at h
          subst h
          exact ⟨fun _ => ⟨hlk, by rw [if_neg hrd]; exact hgate2⟩,
            fun _ => rfl⟩
        · rename_i s4 hs4
          have hng2 := skip_ok_not_gate P dr s4 msg.header.sent_count hs4
          split at h
          · simp at h
          · split at h
            · simp only [Option.some.injEq] at h
              subst h
              refine iff_of_false (by simp) ?_
              rintro ⟨-, hcase⟩
              rw [if_neg hrd] at hcase
              exact hng2 hcase
            · simp only [Option.some.injEq] at h
              subst h
              refine iff_of_false (by simp) ?_
              rintro ⟨-, hcase⟩
              rw [if_neg hrd] at hcase
              exact hng2 hcase

theorem C3_counterexample :
    c3dr.receiving_chain_key = none ∧
    DoubleRatchetClient.attempt_message_decryption toyPrims c3dr toyRng c3msg
      [] = some (.error .TooManySkippedMessages, c3dr, toyRng) := ⟨rfl, rfl⟩

theorem C3_too_many_skipped_witness :
    DoubleRatchetClient.attempt_message_decryption toyPrims c3dr toyRng c3msg
      [] = some (.error .TooManySkippedMessages, c3dr, toyRng) ∧
    (((.error .TooManySkippedMessages : Except CryptoError Bytes), c3dr,
        toyRng).1 = .error .TooManySkippedMessages ↔
      smLookup (c3msg.header.ratchet_public_key, c3msg.header.sent_count)
        c3dr.skipped_messages = none ∧
      (if some c3msg.header.ratchet_public_key ≠ c3dr.receiving_ratchet_key
       then
        c3dr.received_count + MAX_SKIP <
          c3msg.header.previous_sending_chain_count ∨
        (¬ c3dr.received_count + MAX_SKIP <
            c3msg.header.previous_sending_chain_count ∧
          MAX_SKIP < c3msg.header.sent_count)
       else c3dr.received_count + MAX_SKIP < c3msg.header.sent_count)) :=
  ⟨rfl, (C3_too_many_skipped toyPrims).2.2.2 c3dr toyRng c3msg [] _ rfl⟩

theorem create_message_state (P : Prims) (c : Client) (rng : Rng)
    (ik pk p : Bytes) (out : (Except CryptoError Message) × Client × Rng)
    (h : Client.create_message P c rng ik pk p = some out) :
    out.2.1 = c ∨ out.2.1.double_ratchet.isSome := by
  rw [Client.create_message.eq_def] at h
  simp only at h
  split at h
  · split at h
    · simp at h
    · simp only [Option.some.injEq] at h
      subst h
      exact Or.inl rfl
    · split at h
      · simp at h
      · simp only [Option.some.injEq] at h
        subst h
        exact Or.inr rfl
  · simp at h
  · split at h
    · simp at h
    · split at h
      · simp only [Option.some.injEq] at h
        subst h
        exact Or.inr rfl
      · simp only [Option.some.injEq] at h
        subst h
        exact Or.inr rfl
  · split at h
    · simp at h
    · split at h
      · simp only [Option.some.injEq] at h
        subst h
        exact Or.inr rfl
      · split at h
        · simp at h
        · simp only [Option.some.injEq] at h
          subst h
          exact Or.inr rfl

theorem attempt_state (P : Prims) (c : Client) (rng : Rng) (msg : Message)
    (out : (Except CryptoError Bytes) × Client × Rng)
    (h : Client.attempt_message_decryption P c rng msg = some out) :
    out.2.1 = c ∨ out.2.1.double_ratchet.isSome := by
  rw [Client.attempt_message_decryption.eq_def] at h
  split at h
  · simp only [Option.some.injEq] at h
    subst h
    exact Or.inl rfl
  · simp only at h
    split at h
    · simp only [Option.some.injEq] at h
      subst h
      exact Or.inl rfl
    · split at h
      · simp only [Option.some.injEq] at h
        subst h
        exact Or.inl rfl
      · split at h
        · simp at h
        · simp only [Option.some.injEq] at h
          subst h
          exact Or.inl rfl
        · simp only [Option.some.injEq] at h
          subst h
          exact Or.inr rfl
  · simp only at h
    split at h
    · simp at h
    · rename_i res dr2 rng2 hattempt
      cases res with
      | error e0 =>
        simp only [Option.some.injEq] at h
        subst h
        exact Or.inr rfl
      | ok v =>
        simp only [Option.some.injEq] at h
        subst h
        exact Or.inr rfl

/-- C10: every client operation preserves the invariant that the
unacknowledged-X3DH slot is non-empty only if the Double Ratchet slot is
non-empty: starting from a fresh client, after any sequence of
`create_message` and `attempt_message_decryption` calls (successful or
failing), `unacknowledged_x3dh = Some` implies `double_ratchet = Some`. -/
theorem C10_unack_invariant (P : Prims) (c : Client) (h : Reachable P c) :
    c.unacknowledged_x3dh.isSome → c.double_ratchet.isSome := by
  induction h with
  | fresh rng a b =>
    intro hs
    rw [show (Client.new P rng a b).1.unacknowledged_x3dh = none from rfl]
      at hs
    simp at hs
  | created c rng ik pk p out hr hc ih =>
    intro hs
    rcases create_message_state P c rng ik pk p out hc with heq | hdr
    · rw [heq] at hs ⊢
      exact ih hs
    · exact hdr
  | decrypted c rng msg out hr hd ih =>
    intro hs
    rcases attempt_state P c rng msg out hd with heq | hdr
    · rw [heq] at hs ⊢
      exact ih hs
    · exact hdr

theorem C10_unack_invariant_witness :
    c10out.2.1.unacknowledged_x3dh.isSome ∧
    c10out.2.1.double_ratchet.isSome :=
  ⟨by rfl,
    C10_unack_invariant toyPrims c10out.2.1
      (Reachable.created c10alice ⟨toyRng.tape, 20⟩
        c10bob.x3dh.identity_key.public_key c10bob.x3dh.prekey.public_key
        [3] c10out (Reachable.fresh toyRng [1] [2]) rfl)
      (by rfl)⟩

theorem construct_initial_message_eph (P : Prims) (cl : X3DHClient)
    (content sk ek : Bytes) (ad : Bytes) (xm : X3DHMessage)
    (h : X3DHClient.construct_initial_message P cl content sk ek ad =
      some xm) : xm.ephemeral_key = ek := by
  rw [X3DHClient.construct_initial_message] at h
  split at h
  · simp only [Option.some.injEq] at h
    subst h
    rfl
  · simp at h

/-- C9: when both the Double Ratchet slot and the unacknowledged-X3DH slot
are set, `create_message` does not re-run the X3DH key derivation (the rng is
left untouched, whereas `derive_initial_keys` always draws from it): it
encrypts with the existing Double Ratchet, wraps the serialized payload in an
X3DH envelope built from the stored shared secret and stored ephemeral public
key (the envelope's ephemeral key equals the stored one), and the
unacknowledged slot still holds the same pair after the call, also on
error. -/
theorem C9_retransmit (P : Prims) (c : Client) (rng : Rng)
    (ik pk p : Bytes) (dr : DoubleRatchetClient) (sk epk : Bytes)
    (hdr : c.double_ratchet = some dr)
    (hun : c.unacknowledged_x3dh = some (sk, epk)) :
    ∀ out, Client.create_message P c rng ik pk p = some out →
      out.2.2 = rng ∧
      out.2.1.unacknowledged_x3dh = some (sk, epk) ∧
      (∀ m, out.1 = .ok m →
        ∃ xm ser dr',
          DoubleRatchetClient.encrypt_message_and_serialize P dr p
            (X3DHClient.build_associated_data c.x3dh.identity_key.public_key
              ik c.our_info c.their_info) = some (.ok ser, dr') ∧
          X3DHClient.construct_initial_message P c.x3dh ser sk epk
            (X3DHClient.build_associated_data c.x3dh.identity_key.public_key
              ik c.our_info c.their_info) = some xm ∧
          m = .X3DH xm ∧ xm.ephemeral_key = epk ∧
          out.2.1.double_ratchet = some dr') := by
  intro out h
  rw [Client.create_message.eq_def, hdr, hun] at h
  simp only at h
  split at h
  · simp at h
  · rename_i res dr' hser
    split at h
    · simp only [Option.some.injEq] at h
      subst h
      refine ⟨rfl, by simp [hun], ?_⟩
      intro m hm
      exact absurd hm (by simp)
    · rename_i serialized
      split at h
      · simp at h
      · rename_i xm hxm
        simp only [Option.some.injEq] at h
        subst h
        refine ⟨rfl, rfl, ?_⟩
        intro m hm
        simp only [Except.ok.injEq] at hm
        subst hm
        exact ⟨xm, serialized, dr', hser, hxm, rfl,
          construct_initial_message_eph P c.x3dh serialized sk epk _ xm hxm,
          rfl⟩

theorem C9_retransmit_witness :
    c9client.double_ratchet = some c9dr ∧
    c9client.unacknowledged_x3dh = some (c9pair.1, c9pair.2) ∧
    Client.create_message toyPrims c9client toyRng
      c10bob.x3dh.identity_key.public_key c10bob.x3dh.prekey.public_key [4] =
      some c9out ∧
    c9out.2.2 = toyRng ∧
    c9out.2.1.unacknowledged_x3dh = some (c9pair.1, c9pair.2) :=
  ⟨by rfl, by rfl, by rfl,
    (C9_retransmit toyPrims c9client toyRng
      c10bob.x3dh.identity_key.public_key c10bob.x3dh.prekey.public_key [4]
      c9dr c9pair.1 c9pair.2 (by rfl) (by rfl) c9out (by rfl)).1,
    (C9_retransmit toyPrims c9client toyRng
      c10bob.x3dh.identity_key.public_key c10bob.x3dh.prekey.public_key [4]
      c9dr c9pair.1 c9pair.2 (by rfl) (by rfl) c9out (by rfl)).2.1⟩

theorem parseKeyPair_append {kp : KeyPair} (b : Bytes) (h : kp.swf) :
    parseKeyPair (serKeyPair kp ++ b) = some (kp, b) := by
  obtain ⟨h1, h2⟩ := h
  simp only [serKeyPair, List.append_assoc]
  rw [parseKeyPair, parseN_append _ h1]
  simp only [Option.bind_eq_bind, Option.some_bind]
  rw [parseN_append _ h2]
  rfl

theorem parseKeyPair_sound {b rest : Bytes} {kp : KeyPair}
    (hp : parseKeyPair b = some (kp, rest)) :
    serKeyPair kp ++ rest = b ∧ kp.swf := by
  simp only [parseKeyPair, Option.bind_eq_some, Option.map_eq_some'] at hp
  obtain ⟨⟨v1, r1⟩, h1, ⟨⟨v2, r2⟩, h2, heq⟩⟩ := hp
  dsimp only at h2 heq
  simp only [Prod.mk.injEq] at heq
  obtain ⟨hk, hr⟩ := heq
  obtain ⟨h1r, h1l⟩ := parseN_sound h1
  obtain ⟨h2r, h2l⟩ := parseN_sound h2
  subst hk; subst hr
  constructor
  · rw [serKeyPair]
    simp only [List.append_assoc]
    rw [h2r, h1r]
  · exact ⟨h1l, h2l⟩

theorem parseMessageKey_append {mkey : MessageKey} (b : Bytes)
    (h : mkey.swf) : parseMessageKey (serMessageKey mkey ++ b) =
      some (mkey, b) := by
  obtain ⟨h1, h2⟩ := h
  simp only [serMessageKey, List.append_assoc]
  rw [parseMessageKey, parseN_append _ h1]
  simp only [Option.bind_eq_bind, Option.some_bind]
  rw [parseN_append _ h2]
  rfl

theorem parseMessageKey_sound {b rest : Bytes} {mkey : MessageKey}
    (hp : parseMessageKey b = some (mkey, rest)) :
    serMessageKey mkey ++ rest = b ∧ mkey.swf := by
  simp only [parseMessageKey, Option.bind_eq_some, Option.map_eq_some'] at hp
  obtain ⟨⟨v1, r1⟩, h1, ⟨⟨v2, r2⟩, h2, heq⟩⟩ := hp
  dsimp only at h2 heq
  simp only [Prod.mk.injEq] at heq
  obtain ⟨hk, hr⟩ := heq
  obtain ⟨h1r, h1l⟩ := parseN_sound h1
  obtain ⟨h2r, h2l⟩ := parseN_sound h2
  subst hk; subst hr
  constructor
  · rw [serMessageKey]
    simp only [List.append_assoc]
    rw [h2r, h1r]
  · exact ⟨h1l, h2l⟩

theorem parsePair32_append {pr : Bytes × Bytes} (b : Bytes)
    (h1 : pr.1.length = 32) (h2 : pr.2.length = 32) :
    parsePair32 (serPair32 pr ++ b) = some (pr, b) := by
  simp only [serPair32, List.append_assoc]
  rw [parsePair32, parseN_append _ h1]
  simp only [Option.bind_eq_bind, Option.some_bind]
  rw [parseN_append _ h2]
  rfl

theorem parsePair32_sound {b rest : Bytes} {pr : Bytes × Bytes}
    (hp : parsePair32 b = some (pr, rest)) :
    serPair32 pr ++ rest = b ∧ pr.1.length = 32 ∧ pr.2.length = 32 := by
  simp only [parsePair32, Option.bind_eq_some, Option.map_eq_some'] at hp
  obtain ⟨⟨v1, r1⟩, h1, ⟨⟨v2, r2⟩, h2, heq⟩⟩ := hp
  dsimp only at h2 heq
  simp only [Prod.mk.injEq] at heq
  obtain ⟨hk, hr⟩ := heq
  obtain ⟨h1r, h1l⟩ := parseN_sound h1
  obtain ⟨h2r, h2l⟩ := parseN_sound h2
  subst hk; subst hr
  constructor
  · rw [serPair32]
    simp only [List.append_assoc]
    rw [h2r, h1r]
  · exact ⟨h1l, h2l⟩

theorem parseX3DHClient_append {x : X3DHClient} (b : Bytes)
    (h1 : x.identity_key.swf) (h2 : x.prekey.swf) :
    parseX3DHClient (serX3DHClient x ++ b) = some (x, b) := by
  simp only [serX3DHClient, List.append_assoc]
  rw [parseX3DHClient, parseKeyPair_append _ h1]
  simp only [Option.bind_eq_bind, Option.some_bind]
  rw [parseKeyPair_append _ h2]
  rfl

theorem parseX3DHClient_sound {b rest : Bytes} {x : X3DHClient}
    (hp : parseX3DHClient b = some (x, rest)) :
    serX3DHClient x ++ rest = b ∧ x.identity_key.swf ∧ x.prekey.swf := by
  simp only [parseX3DHClient, Option.bind_eq_some, Option.map_eq_some'] at hp
  obtain ⟨⟨v1, r1⟩, h1, ⟨⟨v2, r2⟩, h2, heq⟩⟩ := hp
  dsimp only at h2 heq
  simp only [Prod.mk.injEq] at heq
  obtain ⟨hk, hr⟩ := heq
  obtain ⟨h1r, h1w⟩ := parseKeyPair_sound h1
  obtain ⟨h2r, h2w⟩ := parseKeyPair_sound h2
  subst hk; subst hr
  constructor
  · rw [serX3DHClient]
    simp only [List.append_assoc]
    rw [h2r, h1r]
  · exact ⟨h1w, h2w⟩

theorem parseOpt_append {α : Type} (p : Bytes → Option (α × Bytes))
    (f : α → Bytes) (v : Option α) (b : Bytes)
    (hp : ∀ x, v = some x → p (f x ++ b) = some (x, b)) :
    parseOpt p (serOpt f v ++ b) = some (v, b) := by
  cases v with
  | none => simp [serOpt, parseOpt]
  | some x =>
    simp only [serOpt, parseOpt, List.cons_append]
    rw [if_neg (by norm_num), if_pos trivial, hp x rfl]
    rfl

theorem parseOpt_sound {α : Type} {p : Bytes → Option (α × Bytes)}
    {f : α → Bytes} {Q : α → Prop} {b rest : Bytes} {v : Option α}
    (hp : parseOpt p b = some (v, rest))
    (hsound : ∀ x r1 rest1, p r1 = some (x, rest1) → BytesWF r1 →
      f x ++ rest1 = r1 ∧ Q x)
    (hwf : BytesWF b) :
    serOpt f v ++ rest = b ∧ (∀ x, v = some x → Q x) := by
  cases b with
  | nil => simp [parseOpt] at hp
  | cons t r =>
    have hrwf : BytesWF r := fun x hx => hwf x (by simp [hx])
    have ht : t < 256 := hwf t (by simp)
    simp only [parseOpt] at hp
    split at hp
    · rename_i ht0
      simp only [Option.some.injEq, Prod.mk.injEq] at hp
      obtain ⟨hv, hr⟩ := hp
      subst hv; subst hr; subst ht0
      exact ⟨rfl, by simp⟩
    · split at hp
      · rename_i ht1
        simp only [Option.map_eq_some'] at hp
        obtain ⟨⟨x, rest1⟩, hx, heq⟩ := hp
        simp only [Prod.mk.injEq] at heq
        obtain ⟨hv, hr⟩ := heq
        subst hv; subst hr; subst ht1
        obtain ⟨hxr, hxq⟩ := hsound x r rest1 hx hrwf
        refine ⟨?_, ?_⟩
        · simp only [serOpt, List.cons_append, hxr]
        · rintro y hy
          simp only [Option.some.injEq] at hy
          subst hy
          exact hxq
      · simp at hp

theorem parseSMEntry_append {e : SkippedMessagesKey × MessageKey} (b : Bytes)
    (h : smEntryWF e) : parseSMEntry (serSMEntry e ++ b) = some (e, b) := by
  obtain ⟨h1, h2, h3⟩ := h
  simp only [serSMEntry, List.append_assoc]
  rw [parseSMEntry, parseN_append _ h1]
  simp only [Option.bind_eq_bind, Option.some_bind]
  rw [parseU64_append _ h2]
  simp only [Option.some_bind]
  rw [parseMessageKey_append _ h3]
  rfl

theorem parseSMEntry_sound {b rest : Bytes}
    {e : SkippedMessagesKey × MessageKey}
    (hp : parseSMEntry b = some (e, rest)) (hwf : BytesWF b) :
    serSMEntry e ++ rest = b ∧ smEntryWF e := by
  simp only [parseSMEntry, Option.bind_eq_some, Option.map_eq_some'] at hp
  obtain ⟨⟨v1, r1⟩, h1, ⟨⟨v2, r2⟩, h2, ⟨⟨v3, r3⟩, h3, heq⟩⟩⟩ := hp
  dsimp only at h2 h3 heq
  simp only [Prod.mk.injEq] at heq
  obtain ⟨he, hr⟩ := heq
  obtain ⟨h1r, h1l⟩ := parseN_sound h1
  have hr1wf : BytesWF r1 := (bytesWF_append.mp (h1r ▸ hwf)).2
  obtain ⟨h2r, h2l⟩ := parseU64_sound h2 hr1wf
  obtain ⟨h3r, h3w⟩ := parseMessageKey_sound h3
  subst he; subst hr
  constructor
  · rw [serSMEntry]
    simp only [List.append_assoc]
    rw [h3r, h2r, h1r]
  · exact ⟨h1l, h2l, h3w⟩

theorem parseRepeatSM_append (m : SkippedMap) (b : Bytes)
    (h : ∀ e ∈ m, smEntryWF e) :
    parseRepeatSM m.length (serSMEntries m ++ b) = some (m, b) := by
  induction m with
  | nil => simp [parseRepeatSM, serSMEntries]
  | cons e rest ih =>
    have he : smEntryWF e := h e (by simp)
    have hrest : ∀ x ∈ rest, smEntryWF x := fun x hx => h x (by simp [hx])
    simp only [serSMEntries, List.foldr_cons, List.length_cons]
    rw [parseRepeatSM, List.append_assoc, parseSMEntry_append _ he]
    simp only [Option.bind_eq_bind, Option.some_bind]
    rw [show (List.foldr (fun e acc => serSMEntry e ++ acc) [] rest) =
      serSMEntries rest from rfl, ih hrest]
    rfl

theorem parseRepeatSM_sound {n : Nat} {b rest : Bytes} {m : SkippedMap}
    (hp : parseRepeatSM n b = some (m, rest)) (hwf : BytesWF b) :
    serSMEntries m ++ rest = b ∧ m.length = n ∧ ∀ e ∈ m, smEntryWF e := by
  induction n generalizing b m rest with
  | zero =>
    simp only [parseRepeatSM, Option.some.injEq, Prod.mk.injEq] at hp
    obtain ⟨hm, hr⟩ := hp
    subst hm; subst hr
    exact ⟨rfl, rfl, by simp⟩
  | succ n ih =>
    simp only [parseRepeatSM, Option.bind_eq_some, Option.map_eq_some'] at hp
    obtain ⟨⟨e, r1⟩, he, ⟨⟨l, r2⟩, hl, heq⟩⟩ := hp
    dsimp only at hl heq
    simp only [Prod.mk.injEq] at heq
    obtain ⟨hm, hr⟩ := heq
    obtain ⟨her, hew⟩ := parseSMEntry_sound he hwf
    have hr1wf : BytesWF r1 := (bytesWF_append.mp (her ▸ hwf)).2
    subst hm; subst hr
    obtain ⟨hlr, hll, hlw⟩ := ih hl hr1wf
    refine ⟨?_, by simp [hll], ?_⟩
    · simp only [serSMEntries, List.foldr_cons]
      rw [show (List.foldr (fun e acc => serSMEntry e ++ acc) [] l) =
        serSMEntries l from rfl]
      rw [List.append_assoc, hlr, her]
    · intro x hx
      rcases List.mem_cons.mp hx with hx | hx
      · subst hx; exact hew
      · exact hlw x hx

theorem parseSMap_append (m : SkippedMap) (b : Bytes)
    (hlen : m.length < 2 ^ 64) (h : ∀ e ∈ m, smEntryWF e) :
    parseSMap (serSMap m ++ b) = some (m, b) := by
  simp only [serSMap, List.append_assoc]
  rw [parseSMap, parseU64_append _ hlen]
  simp only [Option.bind_eq_bind, Option.some_bind]
  rw [parseRepeatSM_append m b h]

theorem parseSMap_sound {b rest : Bytes} {m : SkippedMap}
    (hp : parseSMap b = some (m, rest)) (hwf : BytesWF b) :
    serSMap m ++ rest = b ∧ m.length < 2 ^ 64 ∧ ∀ e ∈ m, smEntryWF e := by
  simp only [parseSMap, Option.bind_eq_some] at hp
  obtain ⟨⟨n, r1⟩, hn, hrep⟩ := hp
  dsimp only at hrep
  obtain ⟨hnr, hnlt⟩ := parseU64_sound hn hwf
  have hr1wf : BytesWF r1 := (bytesWF_append.mp (hnr ▸ hwf)).2
  obtain ⟨hrr, hrl, hrw⟩ := parseRepeatSM_sound hrep hr1wf
  refine ⟨?_, by omega, hrw⟩
  rw [serSMap, hrl, List.append_assoc, hrr, hnr]

theorem parseDRState_append {dr : DoubleRatchetClient} (b : Bytes)
    (h : dr.swf) : parseDRState (serDRState dr ++ b) = some (dr, b) := by
  obtain ⟨h1, h2, h3, h4, h5, h6, h7, h8, h9, h10⟩ := h
  simp only [serDRState, List.append_assoc]
  rw [parseDRState, parseKeyPair_append _ h1]
  simp only [Option.bind_eq_bind, Option.some_bind]
  rw [parseOpt_append (parseN 32) (fun k => k) dr.receiving_ratchet_key _
    (fun x hx => parseN_append _ (h2 x hx))]
  simp only [Option.some_bind]
  rw [parseN_append _ h3]
  simp only [Option.some_bind]
  rw [parseOpt_append (parseN 32) (fun k => k) dr.sending_chain_key _
    (fun x hx => parseN_append _ (h4 x hx))]
  simp only [Option.some_bind]
  rw [parseOpt_append (parseN 32) (fun k => k) dr.receiving_chain_key _
    (fun x hx => parseN_append _ (h5 x hx))]
  simp only [Option.some_bind]
  rw [parseU64_append _ h6]
  simp only [Option.some_bind]
  rw [parseU64_append _ h7]
  simp only [Option.some_bind]
  rw [parseU64_append _ h8]
  simp only [Option.some_bind]
  rw [show serSMap dr.skipped_messages ++ b =
    serSMap dr.skipped_messages ++ b from rfl]
  rw [parseSMap_append _ _ h9 h10]
  rfl

theorem parseDRState_sound {b rest : Bytes} {dr : DoubleRatchetClient}
    (hp : parseDRState b = some (dr, rest)) (hwf : BytesWF b) :
    serDRState dr ++ rest = b ∧ dr.swf := by
  simp only [parseDRState, Option.bind_eq_some, Option.map_eq_some'] at hp
  obtain ⟨⟨v1, r1⟩, h1, ⟨⟨v2, r2⟩, h2, ⟨⟨v3, r3⟩, h3, ⟨⟨v4, r4⟩, h4,
    ⟨⟨v5, r5⟩, h5, ⟨⟨v6, r6⟩, h6, ⟨⟨v7, r7⟩, h7, ⟨⟨v8, r8⟩, h8,
    ⟨⟨v9, r9⟩, h9, heq⟩⟩⟩⟩⟩⟩⟩⟩⟩ := hp
  dsimp only at h2 h3 h4 h5 h6 h7 h8 h9 heq
  simp only [Prod.mk.injEq] at heq
  obtain ⟨hdr, hr⟩ := heq
  obtain ⟨h1r, h1w⟩ := parseKeyPair_sound h1
  have hw1 : BytesWF r1 := (bytesWF_append.mp (h1r ▸ hwf)).2
  obtain ⟨h2r, h2w⟩ := parseOpt_sound (f := fun k => k)
    (Q := fun k => k.length = 32) h2
    (fun x rr rrest hx _ => ⟨(parseN_sound hx).1, (parseN_sound hx).2⟩) hw1
  have hw2 : BytesWF r2 := (bytesWF_append.mp (h2r ▸ hw1)).2
  obtain ⟨h3r, h3l⟩ := parseN_sound h3
  have hw3 : BytesWF r3 := (bytesWF_append.mp (h3r ▸ hw2)).2
  obtain ⟨h4r, h4w⟩ := parseOpt_sound (f := fun k => k)
    (Q := fun k => k.length = 32) h4
    (fun x rr rrest hx _ => ⟨(parseN_sound hx).1, (parseN_sound hx).2⟩) hw3
  have hw4 : BytesWF r4 := (bytesWF_append.mp (h4r ▸ hw3)).2
  obtain ⟨h5r, h5w⟩ := parseOpt_sound (f := fun k => k)
    (Q := fun k => k.length = 32) h5
    (fun x rr rrest hx _ => ⟨(parseN_sound hx).1, (parseN_sound hx).2⟩) hw4
  have hw5 : BytesWF r5 := (bytesWF_append.mp (h5r ▸ hw4)).2
  obtain ⟨h6r, h6l⟩ := parseU64_sound h6 hw5
  have hw6 : BytesWF r6 := (bytesWF_append.mp (h6r ▸ hw5)).2
  obtain ⟨h7r, h7l⟩ := parseU64_sound h7 hw6
  have hw7 : BytesWF r7 := (bytesWF_append.mp (h7r ▸ hw6)).2
  obtain ⟨h8r, h8l⟩ := parseU64_sound h8 hw7
  have hw8 : BytesWF r8 := (bytesWF_append.mp (h8r ▸ hw7)).2
  obtain ⟨h9r, h9l, h9w⟩ := parseSMap_sound h9 hw8
  subst hdr; subst hr
  constructor
  · rw [serDRState]
    simp only [List.append_assoc]
    rw [h9r, h8r, h7r, h6r, h5r, h4r, h3r, h2r, h1r]
  · exact ⟨h1w, h2w, h3l, h4w, h5w, h6l, h7l, h8l, h9l, h9w⟩

theorem parseClient_append {c : Client} (b : Bytes) (h : c.swf) :
    parseClient (serClient c ++ b) = some (c, b) := by
  obtain ⟨h1, h2, h3, h4, h5, h6⟩ := h
  simp only [serClient, List.append_assoc]
  rw [parseClient, parseX3DHClient_append _ h1 h2]
  simp only [Option.bind_eq_bind, Option.some_bind]
  rw [parseOpt_append parseDRState serDRState c.double_ratchet _
    (fun x hx => parseDRState_append _ (h3 x hx))]
  simp only [Option.some_bind]
  rw [parseVec_append _ h4]
  simp only [Option.some_bind]
  rw [parseVec_append _ h5]
  simp only [Option.some_bind]
  rw [parseOpt_append parsePair32 serPair32 c.unacknowledged_x3dh _
    (fun x hx => parsePair32_append _ (h6 x hx).1 (h6 x hx).2)]
  rfl

theorem parseClient_sound {b rest : Bytes} {c : Client}
    (hp : parseClient b = some (c, rest)) (hwf : BytesWF b) :
    serClient c ++ rest = b ∧ c.swf := by
  simp only [parseClient, Option.bind_eq_some, Option.map_eq_some'] at hp
  obtain ⟨⟨v1, r1⟩, h1, ⟨⟨v2, r2⟩, h2, ⟨⟨v3, r3⟩, h3, ⟨⟨v4, r4⟩, h4,
    ⟨⟨v5, r5⟩, h5, heq⟩⟩⟩⟩⟩ := hp
  dsimp only at h2 h3 h4 h5 heq
  simp only [Prod.mk.injEq] at heq
  obtain ⟨hc, hr⟩ := heq
  obtain ⟨h1r, h1w1, h1w2⟩ := parseX3DHClient_sound h1
  have hw1 : BytesWF r1 := (bytesWF_append.mp (h1r ▸ hwf)).2
  obtain ⟨h2r, h2w⟩ := parseOpt_sound (f := serDRState)
    (Q := DoubleRatchetClient.swf) h2
    (fun x rr rrest hx hwfr => parseDRState_sound hx hwfr) hw1
  have hw2 : BytesWF r2 := (bytesWF_append.mp (h2r ▸ hw1)).2
  obtain ⟨h3r, h3l⟩ := parseVec_sound h3 hw2
  have hw3 : BytesWF r3 := (bytesWF_append.mp (h3r ▸ hw2)).2
  obtain ⟨h4r, h4l⟩ := parseVec_sound h4 hw3
  have hw4 : BytesWF r4 := (bytesWF_append.mp (h4r ▸ hw3)).2
  obtain ⟨h5r, h5w⟩ := parseOpt_sound (f := serPair32)
    (Q := fun pr : Bytes × Bytes => pr.1.length = 32 ∧ pr.2.length = 32) h5
    (fun x rr rrest hx _ => by
      obtain ⟨ha, hb, hc⟩ := parsePair32_sound hx
      exact ⟨ha, hb, hc⟩) hw4
  subst hc; subst hr
  constructor
  · rw [serClient]
    simp only [List.append_assoc]
    rw [h5r, h4r, h3r, h2r, h1r]
  · exact ⟨h1w1, h1w2, h2w, h3l, h4l, h5w⟩

theorem deserializeClient_serialize {c : Client} (h : c.swf) :
    deserializeClient (serClient c) = some c := by
  have := parseClient_append [] h
  rw [List.append_nil] at this
  rw [deserializeClient, this]

theorem serializeClient_deserialize {b : Bytes} {c : Client}
    (h : deserializeClient b = some c) (hwf : BytesWF b) : serClient c = b := by
  rw [deserializeClient] at h
  split at h
  · rename_i heq
    obtain ⟨hser, _⟩ := parseClient_sound heq hwf
    simp only [Option.some.injEq] at h
    subst h
    simpa using hser
  · exact absurd h (by simp)

/-- C8: serialization is a two-sided inverse of deserialization both for
every well-formed `Message` value (deserializing the serialization yields the
original, and serializing a successful deserialization of a byte string
yields the original bytes) and likewise for `Client` state, giving the
deterministic serialize/deserialize for persistence. -/
theorem C8_serialization_roundtrip :
    (∀ m : Message, m.wf → deserializeMessage (serMessage m) = some m) ∧
    (∀ (b : Bytes) (m : Message), BytesWF b → deserializeMessage b = some m →
      serMessage m = b) ∧
    (∀ c : Client, c.swf → deserializeClient (serClient c) = some c) ∧
    (∀ (b : Bytes) (c : Client), BytesWF b → deserializeClient b = some c →
      serClient c = b) :=
  ⟨fun _ hm => deserializeMessage_serialize hm,
   fun _ _ hb h => serializeMessage_deserialize h hb,
   fun _ hc => deserializeClient_serialize hc,
   fun _ _ hb h => serializeClient_deserialize h hb⟩

theorem C8_serialization_roundtrip_witness :
    Message.wf c8msg ∧
    deserializeMessage (serMessage c8msg) = some c8msg ∧
    Client.swf c8client ∧
    deserializeClient (serClient c8client) = some c8client :=
  ⟨by decide, C8_serialization_roundtrip.1 c8msg (by decide),
   by decide, C8_serialization_roundtrip.2.2.1 c8client (by decide)⟩

theorem skip_noop (P : Prims) (dr : DoubleRatchetClient) (upto : Nat)
    (hgate : ¬ dr.received_count + MAX_SKIP < upto)
    (hcase : dr.receiving_chain_key = none ∨ ¬ dr.received_count < upto) :
    DoubleRatchetClient.skip_message_keys P dr upto = some (.ok dr) := by
  rw [DoubleRatchetClient.skip_message_keys, if_neg hgate]
  split
  · rfl
  · rename_i ck hck
    rcases hcase with hchain | hlt
    · rw [hchain] at hck
      exact absurd hck (by simp)
    · rw [if_neg hlt]

theorem dr_respond_decrypts (P : Prims) (hP : P.Sound) (rngB : Rng)
    (sk rPriv pkPriv p ad ct : Bytes)
    (hE : DoubleRatchetClient.encrypt P
      (ChainKey.kdf P (RootKey.kdf P sk (P.dh rPriv (P.pubOf pkPriv))).2).1 p
      (DoubleRatchetClient.build_associated_data ad ⟨P.pubOf rPriv, 0, 0⟩) =
      some ct) :
    Option.map Prod.fst (DoubleRatchetClient.attempt_message_decryption P
      (DoubleRatchetClient.respond sk ⟨pkPriv, P.pubOf pkPriv⟩) rngB
      ⟨⟨P.pubOf rPriv, 0, 0⟩, ct⟩ ad) = some (.ok p) := by
  simp only [DoubleRatchetClient.attempt_message_decryption,
    DoubleRatchetClient.respond, smLookup]
  rw [if_pos (by simp)]
  rw [skip_noop P _ _ (by simp [MAX_SKIP]) (Or.inl rfl)]
  simp only
  rw [hP.dh_comm pkPriv rPriv]
  rw [skip_noop P _ _ (by simp [MAX_SKIP]) (Or.inr (by simp))]
  simp only
  rw [DoubleRatchetClient.decrypt.eq_def]
  rw [hP.aead_round _ _ _ _ _ hE]
  rfl

/-- C1: for every plaintext, every sound choice of primitives and every rng,
if Alice and Bob are fresh clients constructed with symmetric
`our_info`/`their_info`, then Bob's `attempt_message_decryption` applied to
the `Message` produced by Alice's `create_message` (addressed to Bob's
identity and prekey public keys) succeeds and returns exactly the
plaintext. -/
theorem C1_encrypt_decrypt_roundtrip (P : Prims) (hP : P.Sound)
    (rA rB rC rD : Rng) (ainfo binfo p : Bytes) (msg : Message)
    (h : Option.map Prod.fst (Client.create_message P
        (Client.new P rA ainfo binfo).1 rC
        (Client.new P rB binfo ainfo).1.x3dh.identity_key.public_key
        (Client.new P rB binfo ainfo).1.x3dh.prekey.public_key p) =
      some (.ok msg)) :
    Option.map Prod.fst (Client.attempt_message_decryption P
      (Client.new P rB binfo ainfo).1 rD msg) = some (.ok p) := by
  simp only [Client.new, X3DHClient.new, KeyPair.new, Rng.next] at h ⊢
  simp only [Client.create_message, X3DHClient.derive_initial_keys,
    DoubleRatchetClient.initiate, KeyPair.new, Rng.next,
    DoubleRatchetClient.encrypt_message_and_serialize,
    DoubleRatchetClient.encrypt_message,
    X3DHClient.construct_initial_message] at h
  split at h
  · simp at h
  · simp at h
  · rename_i ser drX heq
    split at heq
    · simp at heq
    · simp at heq
    · rename_i m drY hX
      simp only [Option.some.injEq, Prod.mk.injEq, Except.ok.injEq] at heq
      obtain ⟨hser, hdrY⟩ := heq
      subst hser
      subst hdrY
      split at hX
      · simp at hX
      · rename_i ct1 hE1
        simp only [Option.some.injEq, Prod.mk.injEq, Except.ok.injEq] at hX
        obtain ⟨hm, -⟩ := hX
        subst hm
        split at h
        · simp at h
        · rename_i ct2 hE2
          simp only [Option.map_some', Option.some.injEq,
            Except.ok.injEq] at h
          subst h
          split at hE2
          · rename_i ctB hEnc2
            simp only [Option.some.injEq] at hE2
            subst hE2
            simp only [Client.attempt_message_decryption,
              X3DHClient.decrypt_initial_message]
            rw [hP.dh_comm (rB.tape (rB.pos + 1)) (rA.tape rA.pos)]
            rw [hP.dh_comm (rB.tape rB.pos) (rC.tape rC.pos)]
            rw [hP.dh_comm (rB.tape (rB.pos + 1)) (rC.tape rC.pos)]
            rw [hP.aead_round _ _ _ _ _ hEnc2]
            simp only
            have hwf : (⟨⟨P.pubOf (rC.tape (rC.pos + 1)), 0, 0⟩, ct1⟩ :
                DoubleRatchetMessage).wf :=
              ⟨⟨hP.pub_len _, by norm_num, by norm_num⟩, hP.enc_len _ _ _ _ _ hE1⟩
            rw [deserializeDRMessage_serialize hwf]
            simp only
            have hDR := dr_respond_decrypts P hP rD _ (rC.tape (rC.pos + 1))
              (rB.tape (rB.pos + 1)) p _ ct1 hE1
            cases hA : DoubleRatchetClient.attempt_message_decryption P
                (DoubleRatchetClient.respond
                  (X3DHClient.kdf P
                    (P.dh (rA.tape rA.pos) (P.pubOf (rB.tape (rB.pos + 1))) ++
                     P.dh (rC.tape rC.pos) (P.pubOf (rB.tape rB.pos)) ++
                     P.dh (rC.tape rC.pos) (P.pubOf (rB.tape (rB.pos + 1))))).1
                  ⟨rB.tape (rB.pos + 1), P.pubOf (rB.tape (rB.pos + 1))⟩) rD
                ⟨⟨P.pubOf (rC.tape (rC.pos + 1)), 0, 0⟩, ct1⟩
                (X3DHClient.build_associated_data (P.pubOf (rA.tape rA.pos))
                  (P.pubOf (rB.tape rB.pos)) ainfo binfo) with
            | none =>
              rw [hA] at hDR
              simp at hDR
            | some val =>
              rw [hA] at hDR
              obtain ⟨res, dr2, rng2⟩ := val
              simp only [Option.map_some'] at hDR
              simp only [Option.some.injEq] at hDR
              subst hDR
              rfl
          · simp at hE2

theorem C1_encrypt_decrypt_roundtrip_witness :
    Option.map Prod.fst (Client.create_message toyPrims
      (Client.new toyPrims toyRng [1] [2]).1 ⟨toyRng.tape, 40⟩
      (Client.new toyPrims ⟨toyRng.tape, 30⟩ [2] [1]).1.x3dh.identity_key.public_key
      (Client.new toyPrims ⟨toyRng.tape, 30⟩ [2] [1]).1.x3dh.prekey.public_key
      [7]) = some (.ok c1msg) ∧
    Option.map Prod.fst (Client.attempt_message_decryption toyPrims
      (Client.new toyPrims ⟨toyRng.tape, 30⟩ [2] [1]).1 ⟨toyRng.tape, 50⟩
      c1msg) = some (.ok [7]) :=
  ⟨by rfl,
    C1_encrypt_decrypt_roundtrip toyPrims toyPrims_sound toyRng
      ⟨toyRng.tape, 30⟩ ⟨toyRng.tape, 40⟩ ⟨toyRng.tape, 50⟩ [1] [2] [7]
      c1msg (by rfl)⟩
